import Mathlib

/-!
# EditinGwithPK: the target-size quality search of `script.js`

A shallow embedding of `getCanvasSizeKB` and `adjustToTargetKB` (script.js, lines 281-343).

Modelling conventions.

* In the main embedding JavaScript numbers are exact rationals; floating-point rounding of
  the qualities and sizes is not modelled there.  It is used for the properties that do not
  depend on rounding (call counts, paths, which probe is kept, the value written to the
  slider).
* The width of the bisection bracket does depend on rounding.  For it the loop is embedded a
  second time in IEEE binary64 arithmetic (`searchStep64`, `stateAt64`, `searchLoop64`):
  every arithmetic operation of the source is the exact operation followed by `fl`, rounding
  to the nearest double, ties to even.  The exponent range is not bounded, so overflow and
  subnormal numbers are not modelled; they cannot arise for qualities, which stay in
  [0.1, 1], and for sizes would need numbers beyond 10^308 or below 10^-308.
* `canvas.toBlob` is an external capability.  It is a parameter `Canvas`: the byte size of
  the blob handed to the callback of the `n`-th call of `getCanvasSizeKB` (counted from 0)
  at a given quality, or `none` when the callback receives `null`.  A canvas whose answer
  ignores `n` is an encoder that is a function of the quality alone.
* The DOM controls read or written by the search are the record `Controls`.  Assigning to
  `qualityRange.value` is modelled as storing the number; the slider's own `min`, `max` and
  `step` attributes live in the HTML page, which is not part of `script.js`.
* `if (!x)` on the result of `getCanvasSizeKB` is true for `null` and for the number 0, so
  an empty blob is treated like a failed encode.
* `updateNewInfo()` encodes the canvas once more by itself; that is not a call of
  `getCanvasSizeKB` and is not counted in `calls`.  Only the fact that it was called is
  recorded.
* Fields marked "ghost" do not exist in the source; they record what the source does
  (which probes were issued, why the loop ended) so that it can be stated.
-/

namespace EditinGwithPK

/-- Blob size in bytes produced by the `n`-th probe at a quality; `none` is a `null` blob. -/
abbrev Canvas := ℕ → ℚ → Option ℕ

/-- The controls touched by `adjustToTargetKB`: `formatSelect.value`, `qualityRange.value`,
the number shown by `qualityValue.textContent` in front of its percent sign, and (ghost) how
many times `updateNewInfo()` has been called.  Whether a call changes the `newInfo` text
depends on the blob it encodes (lines 390-394), which is not modelled. -/
structure Controls where
  formatSelect : String
  qualityRange : ℚ
  qualityValue : ℚ
  updateNewInfoCalls : ℕ
  deriving DecidableEq

/-- JavaScript `Math.round`: the nearest integer, halves rounded towards plus infinity. -/
def mathRound (x : ℚ) : ℤ := ⌊x + 1 / 2⌋

/-- Embedding of `getCanvasSizeKB("image/jpeg", quality)` for the `n`-th probe:
`null` for a `null` blob, otherwise `blob.size / 1024`. -/
def getCanvasSizeKB (canvas : Canvas) (n : ℕ) (quality : ℚ) : Option ℚ :=
  match canvas n quality with
  | none => none
  | some size => some ((size : ℚ) / 1024)

/-- Embedding of `updateNewInfo()` as far as the controls of the search go: it touches none
of them; the call is counted (ghost).  Its effect on the `newInfo` text, which is skipped
when the blob is `null` (line 392), is not modelled. -/
def updateNewInfo (ui : Controls) : Controls :=
  { ui with updateNewInfoCalls := ui.updateNewInfoCalls + 1 }

/-- Why the `for` loop of `adjustToTargetKB` ended (ghost). -/
inductive Stop where
  | encoderFailed
  | tight
  | budget
  deriving DecidableEq, Repr

/-- The local variables of the bisection loop.  `bestDiff = none` is `Infinity`.
`calls` (ghost) counts the calls of `getCanvasSizeKB` made so far in this invocation and
`probes` (ghost) lists the successful ones, oldest first, as (quality, size in KB). -/
structure Search where
  low : ℚ
  high : ℚ
  bestQuality : ℚ
  bestDiff : Option ℚ
  calls : ℕ
  probes : List (ℚ × ℚ)
  deriving DecidableEq

/-- The test `diff < bestDiff` of line 324, with `none` standing for `Infinity`. -/
def ltBest (diff : ℚ) : Option ℚ → Bool
  | none => true
  | some b => decide (diff < b)

/-- Lines 323-327 after a successful probe of size `sizeKB` at quality `q`: update the best
probe when `diff < bestDiff`; the call counter and the probe log (ghost) are advanced. -/
def recordProbe (targetKB : ℚ) (s : Search) (q sizeKB : ℚ) : Search :=
  let diff := |sizeKB - targetKB|
  { s with
    bestQuality := if ltBest diff s.bestDiff then q else s.bestQuality
    bestDiff := if ltBest diff s.bestDiff then some diff else s.bestDiff
    calls := s.calls + 1
    probes := s.probes ++ [(q, sizeKB)] }

/-- One iteration of the loop body (lines 319-336).  The second component is `some r` when
the body executes `break` (for reason `r`) and `none` when the loop goes on. -/
def searchStep (canvas : Canvas) (targetKB : ℚ) (s : Search) : Search × Option Stop :=
  let q := (s.low + s.high) / 2
  match getCanvasSizeKB canvas s.calls q with
  | none => ({ s with calls := s.calls + 1 }, some Stop.encoderFailed)
  | some sizeKB =>
    if sizeKB = 0 then ({ s with calls := s.calls + 1 }, some Stop.encoderFailed)
    else
      let s1 := recordProbe targetKB s q sizeKB
      if |sizeKB - targetKB| ≤ 12 then (s1, some Stop.tight)
      else if sizeKB > targetKB then ({ s1 with high := q }, none)
      else ({ s1 with low := q }, none)

/-- The loop `for (let i = 0; i < 12; i++)` with `n` iterations left. -/
def searchLoop (canvas : Canvas) (targetKB : ℚ) : ℕ → Search → Search × Stop
  | 0, s => (s, Stop.budget)
  | n + 1, s =>
    match searchStep canvas targetKB s with
    | (s1, some r) => (s1, r)
    | (s1, none) => searchLoop canvas targetKB n s1

/-- The locals at the start of iteration `k` (lines 312-315 for `k = 0`), or `none` when the
loop has executed `break` before reaching it. -/
def stateAt (canvas : Canvas) (targetKB : ℚ) (s0 : Search) : ℕ → Option Search
  | 0 => some s0
  | k + 1 =>
    match stateAt canvas targetKB s0 k with
    | none => none
    | some s =>
      match searchStep canvas targetKB s with
      | (_, some _) => none
      | (s1, none) => some s1

/-- The locals as initialised on lines 312-315, after the first probe returned `currentKB`
at quality `q0 = qualityRange.value / 100`. -/
def initSearch (q0 currentKB : ℚ) : Search :=
  { low := 1 / 10
    high := 1
    bestQuality := q0
    bestDiff := none
    calls := 1
    probes := [(q0, currentKB)] }

/-- Lines 339-342: clamp `bestQuality`, write the rounded percentage to the slider and to
its label, call `updateNewInfo()`. -/
def applyBest (ui : Controls) (bestQuality : ℚ) : Controls :=
  let clamped := max (1 / 10) (min 1 bestQuality)
  let v : ℚ := (mathRound (clamped * 100) : ℚ)
  updateNewInfo { ui with qualityRange := v, qualityValue := v }

/-- The path taken by one invocation (ghost). -/
inductive Path where
  | formatGuard
  | firstProbeFailed
  | earlyExit
  | searched (s : Search) (stop : Stop)
  deriving DecidableEq

/-- What one invocation of `adjustToTargetKB` leaves behind: the controls, the number of
`getCanvasSizeKB` calls it made (ghost) and the path it took (ghost). -/
structure Run where
  ui : Controls
  calls : ℕ
  path : Path
  deriving DecidableEq

/-- Embedding of `adjustToTargetKB(targetKB)` (lines 298-343). -/
def adjustToTargetKB (canvas : Canvas) (ui : Controls) (targetKB : ℚ) : Run :=
  if ui.formatSelect ≠ "image/jpeg" then ⟨ui, 0, Path.formatGuard⟩
  else
    match getCanvasSizeKB canvas 0 (ui.qualityRange / 100) with
    | none => ⟨ui, 1, Path.firstProbeFailed⟩
    | some currentKB =>
      if currentKB = 0 then ⟨ui, 1, Path.firstProbeFailed⟩
      else if |currentKB - targetKB| < 10 then ⟨updateNewInfo ui, 1, Path.earlyExit⟩
      else
        let r := searchLoop canvas targetKB 12 (initSearch (ui.qualityRange / 100) currentKB)
        ⟨applyBest ui r.1.bestQuality, r.1.calls, Path.searched r.1 r.2⟩

/-- The quality in effect for a state of the controls: `qualityRange.value / 100`. -/
def quality (ui : Controls) : ℚ := ui.qualityRange / 100

/-- A slider at `v` percent with the JPEG format selected. -/
def jpegAt (v : ℚ) : Controls :=
  { formatSelect := "image/jpeg", qualityRange := v, qualityValue := v, updateNewInfoCalls := 0 }

/-- Distance of a probed size from the target (the `diff` of line 323). -/
def diffTo (targetKB : ℚ) (p : ℚ × ℚ) : ℚ := |p.2 - targetKB|

/-- The quality `q` belongs to a probe of `ps` whose size is at least as close to the target
as the size of every probe of `ps`. -/
def IsClosest (targetKB : ℚ) (ps : List (ℚ × ℚ)) (q : ℚ) : Prop :=
  ∃ p ∈ ps, p.1 = q ∧ ∀ p1 ∈ ps, diffTo targetKB p ≤ diffTo targetKB p1

instance (targetKB : ℚ) (ps : List (ℚ × ℚ)) (q : ℚ) : Decidable (IsClosest targetKB ps q) := by
  unfold IsClosest; infer_instance

/-- Invariant of the loop locals, for a search started after a first probe of size
`currentKB` at quality `q0`.  The tail of `probes` holds the bisection probes. -/
structure Inv (targetKB q0 currentKB : ℚ) (s : Search) : Prop where
  low_ge : 1 / 10 ≤ s.low
  low_lt_high : s.low < s.high
  high_le : s.high ≤ 1
  head : s.probes.head? = some (q0, currentKB)
  inside : ∀ p ∈ s.probes.tail, 1 / 10 < p.1 ∧ p.1 < 1
  low_seen : s.low ≠ 1 / 10 → ∃ p ∈ s.probes.tail, p.1 = s.low ∧ p.2 < targetKB - 12
  high_seen : s.high ≠ 1 → ∃ p ∈ s.probes.tail, p.1 = s.high ∧ targetKB + 12 < p.2
  best : (s.probes.tail = [] ∧ s.bestDiff = none ∧ s.bestQuality = q0) ∨
    ∃ p ∈ s.probes.tail, p.1 = s.bestQuality ∧ s.bestDiff = some (diffTo targetKB p) ∧
      ∀ p1 ∈ s.probes.tail, diffTo targetKB p ≤ diffTo targetKB p1

/-- The end of the `resizeBtn` click handler (lines 378-381).  `targetKB` is the result of
`parseInt(targetKbInput.value, 10)`, with `none` for `NaN`.  The result is `none` when
`adjustToTargetKB` is not invoked at all. -/
def resizeClickTail (canvas : Canvas) (ui : Controls) (targetKB : Option ℤ) : Option Run :=
  match targetKB with
  | none => none
  | some t =>
    if t ≠ 0 ∧ t > 0 ∧ ui.formatSelect = "image/jpeg" then
      some (adjustToTargetKB canvas ui (t : ℚ))
    else none

/-! ### Concrete canvases and controls used in examples -/

/-- A slider at `v` percent with the PNG format selected. -/
def pngAt (v : ℚ) : Controls :=
  { formatSelect := "image/png", qualityRange := v, qualityValue := v, updateNewInfoCalls := 0 }

/-- An encoder that is a function of the quality alone and always produces a blob. -/
def pureCanvas (f : ℚ → ℕ) : Canvas := fun _ q => some (f q)

/-- An encoder that never produces a blob. -/
def failingCanvas : Canvas := fun _ _ => none

/-- An encoder producing the same blob of `kb` KB at every quality. -/
def constantCanvas (kb : ℕ) : Canvas := fun _ _ => some (kb * 1024)

/-- 111 KB at quality 0.8 and 1000 KB at every other quality. -/
def closeAtInitial : Canvas :=
  fun _ q => if q = 4 / 5 then some (111 * 1024) else some (1000 * 1024)

/-- 111 KB on the first probe, 1000 KB on probes 2 to 4, no blob from probe 5 on. -/
def failsOnFifth : Canvas :=
  fun n _ => if n = 0 then some (111 * 1024) else if n < 4 then some (1000 * 1024) else none

/-- A monotone step encoder: 50 KB below quality 0.3, 100 KB up to 0.325, 1000 KB above. -/
def stepEncoder (q : ℚ) : ℕ :=
  if q < 3 / 10 then 50 * 1024 else if q ≤ 13 / 40 then 100 * 1024 else 1000 * 1024

/-- A monotone encoder producing an empty blob below quality 0.9 and 200 KB from there on. -/
def emptyBelowEncoder (q : ℚ) : ℕ := if q < 9 / 10 then 0 else 200 * 1024

/-- The encoder of the spec's example scenario: `size(q) = 500_000 * q` bytes, rounded down
to a whole number of bytes. -/
def linearEncoder (q : ℚ) : ℕ := ⌊500000 * q⌋.toNat

/-- The locals of the search against `failsOnFifth` (target 100 KB, initial quality 0.8)
at the start of iteration 3, after three bisection probes. -/
def fifthLocals3 : Search :=
  { low := 1 / 10
    high := 17 / 80
    bestQuality := 11 / 20
    bestDiff := some 900
    calls := 4
    probes := [(4 / 5, 111), (11 / 20, 1000), (13 / 40, 1000), (17 / 80, 1000)] }

/-! ### The loop in IEEE binary64 arithmetic -/

/-- Number of binary digits of `n` minus one, `⌊log₂ n⌋`, for `n ≥ 1`, by halving. -/
def floorLog2Aux : ℕ → ℕ → ℕ
  | 0, _ => 0
  | fuel + 1, n => if n < 2 then 0 else floorLog2Aux fuel (n / 2) + 1

/-- Floor of the binary logarithm, `⌊log₂ n⌋`, of a natural number `n ≥ 1`. -/
def floorLog2 (n : ℕ) : ℕ := floorLog2Aux n n

/-- The binary exponent `⌊log₂ x⌋` of a positive rational: the difference of the logarithms
of numerator and denominator, corrected by one when it overshoots. -/
def binade (x : ℚ) : ℤ :=
  if (2 : ℚ) ^ ((floorLog2 x.num.natAbs : ℤ) - (floorLog2 x.den : ℤ)) ≤ x then
    (floorLog2 x.num.natAbs : ℤ) - (floorLog2 x.den : ℤ)
  else (floorLog2 x.num.natAbs : ℤ) - (floorLog2 x.den : ℤ) - 1

/-- Rounding to the nearest integer, ties to the even one. -/
def roundHalfEven (y : ℚ) : ℤ :=
  if y - ⌊y⌋ < 1 / 2 then ⌊y⌋
  else if 1 / 2 < y - ⌊y⌋ then ⌊y⌋ + 1
  else if ⌊y⌋ % 2 = 0 then ⌊y⌋ else ⌊y⌋ + 1

/-- Rounding of an exact result to IEEE binary64: the nearest multiple of the unit in the
last place `2 ^ (⌊log₂ |x|⌋ - 52)` of `x`, ties to even (53 significant bits). -/
def fl (x : ℚ) : ℚ :=
  (roundHalfEven (x / 2 ^ (binade |x| - 52)) : ℚ) * 2 ^ (binade |x| - 52)

/-- Binary64 version of `getCanvasSizeKB`: `blob.size / 1024` in doubles. -/
def getCanvasSizeKB64 (canvas : Canvas) (n : ℕ) (quality : ℚ) : Option ℚ :=
  match canvas n quality with
  | none => none
  | some size => some (fl (fl (size : ℚ) / 1024))

/-- Binary64 version of `recordProbe` (lines 323-327):
`diff = Math.abs(sizeKB - targetKB)` is the absolute value of the rounded difference. -/
def recordProbe64 (targetKB : ℚ) (s : Search) (q sizeKB : ℚ) : Search :=
  let diff := |fl (sizeKB - targetKB)|
  { s with
    bestQuality := if ltBest diff s.bestDiff then q else s.bestQuality
    bestDiff := if ltBest diff s.bestDiff then some diff else s.bestDiff
    calls := s.calls + 1
    probes := s.probes ++ [(q, sizeKB)] }

/-- Binary64 version of `searchStep` (lines 319-336): the midpoint is
`(low + high) / 2` with the sum and the quotient each rounded. -/
def searchStep64 (canvas : Canvas) (targetKB : ℚ) (s : Search) : Search × Option Stop :=
  let q := fl (fl (s.low + s.high) / 2)
  match getCanvasSizeKB64 canvas s.calls q with
  | none => ({ s with calls := s.calls + 1 }, some Stop.encoderFailed)
  | some sizeKB =>
    if sizeKB = 0 then ({ s with calls := s.calls + 1 }, some Stop.encoderFailed)
    else
      let s1 := recordProbe64 targetKB s q sizeKB
      if |fl (sizeKB - targetKB)| ≤ 12 then (s1, some Stop.tight)
      else if sizeKB > targetKB then ({ s1 with high := q }, none)
      else ({ s1 with low := q }, none)

/-- Binary64 version of `searchLoop`: the `for` loop with `n` iterations left. -/
def searchLoop64 (canvas : Canvas) (targetKB : ℚ) : ℕ → Search → Search × Stop
  | 0, s => (s, Stop.budget)
  | n + 1, s =>
    match searchStep64 canvas targetKB s with
    | (s1, some r) => (s1, r)
    | (s1, none) => searchLoop64 canvas targetKB n s1

/-- Binary64 version of `stateAt`: the locals at the start of iteration `k`, or `none` when
the loop has executed `break` before reaching it. -/
def stateAt64 (canvas : Canvas) (targetKB : ℚ) (s0 : Search) : ℕ → Option Search
  | 0 => some s0
  | k + 1 =>
    match stateAt64 canvas targetKB s0 k with
    | none => none
    | some s =>
      match searchStep64 canvas targetKB s with
      | (_, some _) => none
      | (s1, none) => some s1

/-- Binary64 version of `initSearch` (lines 312-315): the literal `0.1` is the double
nearest to one tenth. -/
def initSearch64 (q0 currentKB : ℚ) : Search :=
  { low := fl (1 / 10)
    high := 1
    bestQuality := q0
    bestDiff := none
    calls := 1
    probes := [(q0, currentKB)] }

/-- Invariant of the binary64 loop locals at the start of iteration `k`: the bracket stays
inside [0.1, 1], its width is `(1 - 0.1) / 2^k` up to an accumulated rounding error of at
most `3 / 2^53`, and a moved endpoint carries the probe that moved it. -/
structure Inv64 (targetKB : ℚ) (k : ℕ) (s : Search) : Prop where
  low_ge : fl (1 / 10) ≤ s.low
  high_le : s.high ≤ 1
  width : |s.high - s.low - (1 - fl (1 / 10)) * (1 / 2) ^ k| ≤ 3 / 2 ^ 53 * (1 - (1 / 2) ^ k)
  nonempty : s.probes ≠ []
  low_seen : s.low ≠ fl (1 / 10) → ∃ p ∈ s.probes.tail, p.1 = s.low ∧ p.2 < targetKB - 12
  high_seen : s.high ≠ 1 → ∃ p ∈ s.probes.tail, p.1 = s.high ∧ targetKB + 12 < p.2

/-- The binary64 locals at the start of iteration 1 against an encoder that always returns
1000 KB, target 100 KB, initial quality the double 0.8: `low` is the double 0.1 and `high`
the double 0.55. -/
def constantLocals1 : Search :=
  { low := 3602879701896397 / 36028797018963968
    high := 2476979795053773 / 4503599627370496
    bestQuality := 2476979795053773 / 4503599627370496
    bestDiff := some 900
    calls := 2
    probes := [(3602879701896397 / 4503599627370496, 1000),
      (2476979795053773 / 4503599627370496, 1000)] }

/-- The binary64 locals at the start of iteration 2 of the spec's example scenario (target
200000 bytes, initial quality the double 0.8, `linearEncoder`): `low` is the double 0.325 and
`high` the double 0.55. -/
def linearLocals2 : Search :=
  { low := 5854679515581645 / 18014398509481984
    high := 2476979795053773 / 4503599627370496
    bestQuality := 5854679515581645 / 18014398509481984
    bestDiff := some (9375 / 256)
    calls := 3
    probes := [(3602879701896397 / 4503599627370496, 3125 / 8),
      (2476979795053773 / 4503599627370496, 34375 / 128),
      (5854679515581645 / 18014398509481984, 40625 / 256)] }

end EditinGwithPK

/-! ## Helper lemmas about one iteration -/

namespace EditinGwithPK

/-- Case analysis of one iteration: the probe fails, or it succeeds with some size and the
body stops on the tight tolerance, lowers `high`, or raises `low`. -/
theorem searchStep_cases (c : Canvas) (t : ℚ) (s : Search) :
    ((getCanvasSizeKB c s.calls ((s.low + s.high) / 2) = none ∨
        getCanvasSizeKB c s.calls ((s.low + s.high) / 2) = some 0) ∧
      searchStep c t s = ({ s with calls := s.calls + 1 }, some Stop.encoderFailed)) ∨
    ∃ sz, getCanvasSizeKB c s.calls ((s.low + s.high) / 2) = some sz ∧ sz ≠ 0 ∧
      ((|sz - t| ≤ 12 ∧
          searchStep c t s = (recordProbe t s ((s.low + s.high) / 2) sz, some Stop.tight)) ∨
        (12 < |sz - t| ∧ t < sz ∧
          searchStep c t s =
            ({ recordProbe t s ((s.low + s.high) / 2) sz with high := (s.low + s.high) / 2 },
              none)) ∨
        (12 < |sz - t| ∧ sz ≤ t ∧
          searchStep c t s =
            ({ recordProbe t s ((s.low + s.high) / 2) sz with low := (s.low + s.high) / 2 },
              none))) := by
  cases h : getCanvasSizeKB c s.calls ((s.low + s.high) / 2) with
  | none => left; simp [searchStep, h]
  | some sz =>
    by_cases h0 : sz = 0
    · left; simp [searchStep, h, h0]
    · right
      refine ⟨sz, rfl, h0, ?_⟩
      by_cases h12 : |sz - t| ≤ 12
      · left; simp [searchStep, h, h0, h12]
      · right
        have h12' : 12 < |sz - t| := lt_of_not_ge h12
        by_cases hgt : sz > t
        · left; exact ⟨h12', hgt, by simp [searchStep, h, h0, h12, hgt]⟩
        · right; exact ⟨h12', le_of_not_gt hgt, by simp [searchStep, h, h0, h12, hgt]⟩

/-- Every iteration makes exactly one call of `getCanvasSizeKB`. -/
theorem searchStep_calls (c : Canvas) (t : ℚ) (s : Search) :
    (searchStep c t s).1.calls = s.calls + 1 := by
  rcases searchStep_cases c t s with ⟨_, h⟩ | ⟨sz, _, _, ⟨_, h⟩ | ⟨_, _, h⟩ | ⟨_, _, h⟩⟩ <;>
    simp [h, recordProbe]

/-- The loop with `n` iterations left makes at most `n` calls. -/
theorem searchLoop_calls_le (c : Canvas) (t : ℚ) (n : ℕ) (s : Search) :
    (searchLoop c t n s).1.calls ≤ s.calls + n := by
  induction n generalizing s with
  | zero => simp [searchLoop]
  | succ n ih =>
    have hc := searchStep_calls c t s
    unfold searchLoop
    cases hstep : searchStep c t s with
    | mk s1 o =>
      rw [hstep] at hc
      cases o with
      | some r => simp only; simp at hc; omega
      | none =>
        simp only
        have := ih s1
        simp at hc
        omega

/-! ## The loop invariant -/

theorem inv_init (t q0 cur : ℚ) : Inv t q0 cur (initSearch q0 cur) := by
  constructor <;> norm_num [initSearch]

theorem tail_snoc {α : Type} (l : List α) (x : α) (h : l ≠ []) :
    (l ++ [x]).tail = l.tail ++ [x] := by
  cases l with
  | nil => exact absurd rfl h
  | cons a l => simp

theorem probes_ne_nil {t q0 cur : ℚ} {s : Search} (h : Inv t q0 cur s) : s.probes ≠ [] := by
  intro hnil
  have := h.head
  rw [hnil] at this
  simp at this

/-- The best-probe part of the invariant after recording a successful probe. -/
theorem best_record {t q0 cur : ℚ} {s : Search} (h : Inv t q0 cur s) (q sz : ℚ) :
    ∃ p ∈ s.probes.tail ++ [(q, sz)], p.1 = (recordProbe t s q sz).bestQuality ∧
      (recordProbe t s q sz).bestDiff = some (diffTo t p) ∧
      ∀ p1 ∈ s.probes.tail ++ [(q, sz)], diffTo t p ≤ diffTo t p1 := by
  rcases h.best with ⟨hnil, hd, _⟩ | ⟨p, hp, hpq, hd, hmin⟩
  · refine ⟨(q, sz), by simp, ?_, ?_, ?_⟩
    · simp [recordProbe, hd, ltBest]
    · simp [recordProbe, hd, ltBest, diffTo]
    · intro p1 hp1
      simp [hnil] at hp1
      rw [hp1]
  · by_cases hlt : |sz - t| < diffTo t p
    · refine ⟨(q, sz), by simp, ?_, ?_, ?_⟩
      · simp [recordProbe, hd, ltBest, hlt]
      · have hlt1 : |sz - t| < |p.2 - t| := hlt
        simp [recordProbe, hd, ltBest, hlt1, diffTo]
      · intro p1 hp1
        rcases List.mem_append.1 hp1 with h1 | h1
        · exact le_trans (le_of_lt hlt) (hmin p1 h1)
        · simp at h1
          rw [h1]
    · refine ⟨p, List.mem_append_left _ hp, ?_, ?_, ?_⟩
      · simp [recordProbe, hd, ltBest, hlt, hpq]
      · simp [recordProbe, hd, ltBest, hlt]
      · intro p1 hp1
        rcases List.mem_append.1 hp1 with h1 | h1
        · exact hmin p1 h1
        · simp at h1
          rw [h1]
          exact le_of_not_lt hlt

/-- One iteration preserves the invariant, whether or not it ends the loop. -/
theorem inv_step {t q0 cur : ℚ} (c : Canvas) {s : Search} (h : Inv t q0 cur s) :
    Inv t q0 cur (searchStep c t s).1 := by
  have hne := probes_ne_nil h
  have hlo := h.low_ge
  have hlt := h.low_lt_high
  have hhi := h.high_le
  have hmid1 : (1 : ℚ) / 10 < (s.low + s.high) / 2 := by linarith
  have hmid2 : (s.low + s.high) / 2 < 1 := by linarith
  have hprobes : ∀ sz, (recordProbe t s ((s.low + s.high) / 2) sz).probes.tail =
      s.probes.tail ++ [((s.low + s.high) / 2, sz)] := fun sz => by
    simp [recordProbe, tail_snoc _ _ hne]
  have hhead : ∀ sz, (recordProbe t s ((s.low + s.high) / 2) sz).probes.head? =
      some (q0, cur) := fun sz => by
    have := h.head
    cases hp : s.probes with
    | nil => exact absurd hp hne
    | cons a l => rw [hp] at this; simpa [recordProbe, hp] using this
  have hinside : ∀ sz, ∀ p ∈ s.probes.tail ++ [((s.low + s.high) / 2, sz)],
      1 / 10 < p.1 ∧ p.1 < 1 := fun sz p hp => by
    rcases List.mem_append.1 hp with h1 | h1
    · exact h.inside p h1
    · simp at h1
      rw [h1]
      exact ⟨hmid1, hmid2⟩
  rcases searchStep_cases c t s with ⟨_, hs⟩ | ⟨sz, _, _, ⟨_, hs⟩ | ⟨h12, hgt, hs⟩ | ⟨h12, hle, hs⟩⟩
  · rw [hs]
    exact ⟨h.low_ge, h.low_lt_high, h.high_le, h.head, h.inside, h.low_seen, h.high_seen, h.best⟩
  · rw [hs]
    refine ⟨hlo, hlt, hhi, hhead sz, ?_, ?_, ?_, ?_⟩
    · rw [hprobes]; exact hinside sz
    · intro hl
      obtain ⟨p, hp, h1, h2⟩ := h.low_seen hl
      exact ⟨p, by rw [hprobes]; exact List.mem_append_left _ hp, h1, h2⟩
    · intro hl
      obtain ⟨p, hp, h1, h2⟩ := h.high_seen hl
      exact ⟨p, by rw [hprobes]; exact List.mem_append_left _ hp, h1, h2⟩
    · right; rw [hprobes]; exact best_record h _ sz
  · rw [hs]
    refine ⟨hlo, by show s.low < (s.low + s.high) / 2; linarith,
      by show (s.low + s.high) / 2 ≤ 1; linarith, hhead sz, ?_, ?_, ?_, ?_⟩
    · show ∀ p ∈ (recordProbe t s ((s.low + s.high) / 2) sz).probes.tail, _
      rw [hprobes]; exact hinside sz
    · intro hl
      obtain ⟨p, hp, h1, h2⟩ := h.low_seen hl
      refine ⟨p, ?_, h1, h2⟩
      show p ∈ (recordProbe t s ((s.low + s.high) / 2) sz).probes.tail
      rw [hprobes]; exact List.mem_append_left _ hp
    · intro _
      refine ⟨((s.low + s.high) / 2, sz), ?_, rfl, ?_⟩
      · show _ ∈ (recordProbe t s ((s.low + s.high) / 2) sz).probes.tail
        rw [hprobes]; simp
      · have := abs_of_pos (sub_pos.2 hgt)
        show t + 12 < sz
        rw [this] at h12; linarith
    · right
      show ∃ p ∈ (recordProbe t s ((s.low + s.high) / 2) sz).probes.tail, _
      rw [hprobes]; exact best_record h _ sz
  · rw [hs]
    refine ⟨by show (1 : ℚ) / 10 ≤ (s.low + s.high) / 2; linarith,
      by show (s.low + s.high) / 2 < s.high; linarith, hhi, hhead sz, ?_, ?_, ?_, ?_⟩
    · show ∀ p ∈ (recordProbe t s ((s.low + s.high) / 2) sz).probes.tail, _
      rw [hprobes]; exact hinside sz
    · intro _
      refine ⟨((s.low + s.high) / 2, sz), ?_, rfl, ?_⟩
      · show _ ∈ (recordProbe t s ((s.low + s.high) / 2) sz).probes.tail
        rw [hprobes]; simp
      · have := abs_of_nonpos (sub_nonpos.2 hle)
        show sz < t - 12
        rw [this] at h12; linarith
    · intro hl
      obtain ⟨p, hp, h1, h2⟩ := h.high_seen hl
      refine ⟨p, ?_, h1, h2⟩
      show p ∈ (recordProbe t s ((s.low + s.high) / 2) sz).probes.tail
      rw [hprobes]; exact List.mem_append_left _ hp
    · right
      show ∃ p ∈ (recordProbe t s ((s.low + s.high) / 2) sz).probes.tail, _
      rw [hprobes]; exact best_record h _ sz

/-! ## The loop as a whole -/

theorem searchLoop_succ (c : Canvas) (t : ℚ) (n : ℕ) (s : Search) :
    searchLoop c t (n + 1) s =
      match searchStep c t s with
      | (s1, some r) => (s1, r)
      | (s1, none) => searchLoop c t n s1 := rfl

theorem searchLoop_of_break {c : Canvas} {t : ℚ} {s s1 : Search} {r : Stop} (n : ℕ)
    (h : searchStep c t s = (s1, some r)) : searchLoop c t (n + 1) s = (s1, r) := by
  rw [searchLoop_succ, h]

theorem searchLoop_of_continue {c : Canvas} {t : ℚ} {s s1 : Search} (n : ℕ)
    (h : searchStep c t s = (s1, none)) : searchLoop c t (n + 1) s = searchLoop c t n s1 := by
  rw [searchLoop_succ, h]

/-- The invariant holds for the locals the loop ends with. -/
theorem inv_loop {t q0 cur : ℚ} (c : Canvas) (n : ℕ) {s : Search} (h : Inv t q0 cur s) :
    Inv t q0 cur (searchLoop c t n s).1 := by
  induction n generalizing s with
  | zero => exact h
  | succ n ih =>
    have hstep := inv_step c h
    cases hs : searchStep c t s with
    | mk s1 o =>
      rw [hs] at hstep
      cases o with
      | some r => rw [searchLoop_of_break n hs]; exact hstep
      | none => rw [searchLoop_of_continue n hs]; exact ih hstep

theorem stateAt_succ_some {c : Canvas} {t : ℚ} {s0 s : Search} {k : ℕ}
    (h : stateAt c t s0 (k + 1) = some s) :
    ∃ s1, stateAt c t s0 k = some s1 ∧ searchStep c t s1 = (s, none) := by
  simp only [stateAt] at h
  cases h1 : stateAt c t s0 k with
  | none => rw [h1] at h; simp at h
  | some s1 =>
    rw [h1] at h
    refine ⟨s1, rfl, ?_⟩
    cases hs : searchStep c t s1 with
    | mk s2 o =>
      simp only [hs] at h
      cases o with
      | some r => simp at h
      | none => simp at h; rw [h]

/-- The invariant holds at the start of every iteration that is reached. -/
theorem inv_stateAt {t q0 cur : ℚ} (c : Canvas) {s0 : Search} (h : Inv t q0 cur s0) (k : ℕ)
    {s : Search} (hk : stateAt c t s0 k = some s) : Inv t q0 cur s := by
  induction k generalizing s with
  | zero => simp [stateAt] at hk; rw [← hk]; exact h
  | succ k ih =>
    obtain ⟨s1, h1, h2⟩ := stateAt_succ_some hk
    have := inv_step c (ih h1)
    rw [h2] at this
    exact this

/-- A continuing iteration halves the bracket, makes one call and logs one probe. -/
theorem searchStep_continue {c : Canvas} {t : ℚ} {s s1 : Search}
    (h : searchStep c t s = (s1, none)) :
    s1.high - s1.low = (s.high - s.low) / 2 ∧ s1.calls = s.calls + 1 ∧
      s1.probes.length = s.probes.length + 1 := by
  rcases searchStep_cases c t s with ⟨_, hs⟩ | ⟨sz, _, _, ⟨_, hs⟩ | ⟨_, _, hs⟩ | ⟨_, _, hs⟩⟩ <;>
    rw [hs] at h <;> simp at h
  · rw [← h]
    refine ⟨?_, by simp [recordProbe], by simp [recordProbe]⟩
    show (s.low + s.high) / 2 - s.low = (s.high - s.low) / 2
    ring
  · rw [← h]
    refine ⟨?_, by simp [recordProbe], by simp [recordProbe]⟩
    show s.high - (s.low + s.high) / 2 = (s.high - s.low) / 2
    ring

/-- Width of the bracket, number of calls and number of logged probes at iteration `k`. -/
theorem stateAt_counts (c : Canvas) (t : ℚ) (s0 : Search) (k : ℕ) {s : Search}
    (hk : stateAt c t s0 k = some s) :
    s.high - s.low = (s0.high - s0.low) / 2 ^ k ∧ s.calls = s0.calls + k ∧
      s.probes.length = s0.probes.length + k := by
  induction k generalizing s with
  | zero => simp [stateAt] at hk; rw [← hk]; simp
  | succ k ih =>
    obtain ⟨s1, h1, h2⟩ := stateAt_succ_some hk
    obtain ⟨a, b, d⟩ := ih h1
    obtain ⟨a1, b1, d1⟩ := searchStep_continue h2
    refine ⟨?_, by omega, by omega⟩
    rw [a1, a, pow_succ]
    field_simp

/-- Reaching iteration `k` means the loop still has its remaining iterations to run from there. -/
theorem searchLoop_of_stateAt (c : Canvas) (t : ℚ) (s0 : Search) (k m : ℕ) {s : Search}
    (hk : stateAt c t s0 k = some s) : searchLoop c t (k + m) s0 = searchLoop c t m s := by
  induction k generalizing s m with
  | zero => simp [stateAt] at hk; rw [hk]; simp
  | succ k ih =>
    obtain ⟨s1, h1, h2⟩ := stateAt_succ_some hk
    have := ih (m + 1) h1
    rw [searchLoop_of_continue m h2] at this
    rw [← this]
    congr 1
    omega

/-- How the loop can end: on the budget after exactly `n` calls, on the tight tolerance with
a logged bisection probe within 12 KB, or on a probe (at a quality strictly between 0.1 and
1) that produced no usable size. -/
theorem searchLoop_stop {t q0 cur : ℚ} (c : Canvas) (n : ℕ) {s : Search}
    (h : Inv t q0 cur s) :
    ((searchLoop c t n s).2 = Stop.budget ∧ (searchLoop c t n s).1.calls = s.calls + n) ∨
    ((searchLoop c t n s).2 = Stop.tight ∧
      ∃ p ∈ (searchLoop c t n s).1.probes.tail, diffTo t p ≤ 12) ∨
    ((searchLoop c t n s).2 = Stop.encoderFailed ∧
      ∃ i q, 1 / 10 < q ∧ q < 1 ∧
        (getCanvasSizeKB c i q = none ∨ getCanvasSizeKB c i q = some 0)) := by
  induction n generalizing s with
  | zero => left; simp [searchLoop]
  | succ n ih =>
    have hne := probes_ne_nil h
    have hinv := inv_step c h
    rcases searchStep_cases c t s with ⟨hf, hs⟩ | ⟨sz, _, _, ⟨h12, hs⟩ | ⟨_, _, hs⟩ | ⟨_, _, hs⟩⟩
    · right; right
      rw [searchLoop_of_break n hs]
      have hlo := h.low_ge
      have hlt := h.low_lt_high
      have hhi := h.high_le
      exact ⟨rfl, _, _, by linarith, by linarith, hf⟩
    · right; left
      rw [searchLoop_of_break n hs]
      refine ⟨rfl, ((s.low + s.high) / 2, sz), ?_, h12⟩
      simp [recordProbe, tail_snoc _ _ hne]
    · rw [searchLoop_of_continue n hs]
      rw [hs] at hinv
      rcases ih hinv with ⟨a, b⟩ | hrest
      · left; refine ⟨a, ?_⟩; rw [b]; simp [recordProbe]; omega
      · right; exact hrest
    · rw [searchLoop_of_continue n hs]
      rw [hs] at hinv
      rcases ih hinv with ⟨a, b⟩ | hrest
      · left; refine ⟨a, ?_⟩; rw [b]; simp [recordProbe]; omega
      · right; exact hrest

/-- A property of (quality, size) pairs that every answer of the canvas has holds for every
logged probe. -/
theorem probes_step (c : Canvas) (t : ℚ) (P : ℚ × ℚ → Prop)
    (hc : ∀ i q sz, getCanvasSizeKB c i q = some sz → P (q, sz)) {s : Search}
    (h : ∀ p ∈ s.probes, P p) : ∀ p ∈ (searchStep c t s).1.probes, P p := by
  rcases searchStep_cases c t s with ⟨_, hs⟩ | ⟨sz, hsz, _, ⟨_, hs⟩ | ⟨_, _, hs⟩ | ⟨_, _, hs⟩⟩ <;>
    rw [hs]
  · exact h
  all_goals
    intro p hp
    have hp1 : p ∈ s.probes ++ [((s.low + s.high) / 2, sz)] := hp
    rcases List.mem_append.1 hp1 with h1 | h1
    · exact h p h1
    · simp at h1; rw [h1]; exact hc _ _ _ hsz

theorem probes_loop (c : Canvas) (t : ℚ) (P : ℚ × ℚ → Prop)
    (hc : ∀ i q sz, getCanvasSizeKB c i q = some sz → P (q, sz)) (n : ℕ) {s : Search}
    (h : ∀ p ∈ s.probes, P p) : ∀ p ∈ (searchLoop c t n s).1.probes, P p := by
  induction n generalizing s with
  | zero => exact h
  | succ n ih =>
    have hstep := probes_step c t P hc h
    cases hs : searchStep c t s with
    | mk s1 o =>
      rw [hs] at hstep
      cases o with
      | some r => rw [searchLoop_of_break n hs]; exact hstep
      | none => rw [searchLoop_of_continue n hs]; exact ih hstep

/-! ## The paths of `adjustToTargetKB` -/

/-- The four paths through `adjustToTargetKB` and what each leaves behind. -/
theorem adjust_cases (c : Canvas) (ui : Controls) (t : ℚ) :
    (ui.formatSelect ≠ "image/jpeg" ∧ adjustToTargetKB c ui t = ⟨ui, 0, Path.formatGuard⟩) ∨
    (ui.formatSelect = "image/jpeg" ∧
      (getCanvasSizeKB c 0 (ui.qualityRange / 100) = none ∨
        getCanvasSizeKB c 0 (ui.qualityRange / 100) = some 0) ∧
      adjustToTargetKB c ui t = ⟨ui, 1, Path.firstProbeFailed⟩) ∨
    (ui.formatSelect = "image/jpeg" ∧
      ∃ cur, getCanvasSizeKB c 0 (ui.qualityRange / 100) = some cur ∧ cur ≠ 0 ∧
        |cur - t| < 10 ∧ adjustToTargetKB c ui t = ⟨updateNewInfo ui, 1, Path.earlyExit⟩) ∨
    (ui.formatSelect = "image/jpeg" ∧
      ∃ cur, getCanvasSizeKB c 0 (ui.qualityRange / 100) = some cur ∧ cur ≠ 0 ∧
        10 ≤ |cur - t| ∧
        adjustToTargetKB c ui t =
          ⟨applyBest ui (searchLoop c t 12 (initSearch (ui.qualityRange / 100) cur)).1.bestQuality,
            (searchLoop c t 12 (initSearch (ui.qualityRange / 100) cur)).1.calls,
            Path.searched (searchLoop c t 12 (initSearch (ui.qualityRange / 100) cur)).1
              (searchLoop c t 12 (initSearch (ui.qualityRange / 100) cur)).2⟩) := by
  by_cases hfmt : ui.formatSelect = "image/jpeg"
  · right
    cases hfirst : getCanvasSizeKB c 0 (ui.qualityRange / 100) with
    | none => left; exact ⟨hfmt, Or.inl rfl, by simp [adjustToTargetKB, hfmt, hfirst]⟩
    | some cur =>
      by_cases h0 : cur = 0
      · left; exact ⟨hfmt, Or.inr (by rw [h0]), by simp [adjustToTargetKB, hfmt, hfirst, h0]⟩
      · right
        by_cases hclose : |cur - t| < 10
        · left
          exact ⟨hfmt, cur, rfl, h0, hclose, by simp [adjustToTargetKB, hfmt, hfirst, h0, hclose]⟩
        · right
          exact ⟨hfmt, cur, rfl, h0, le_of_not_lt hclose,
            by simp [adjustToTargetKB, hfmt, hfirst, h0, hclose]⟩
  · left; exact ⟨hfmt, by simp [adjustToTargetKB, hfmt]⟩

/-- What a run that reached the search (no early return) consists of. -/
theorem adjust_searched {c : Canvas} {ui : Controls} {t : ℚ} {s : Search} {stop : Stop}
    (h : (adjustToTargetKB c ui t).path = Path.searched s stop) :
    ui.formatSelect = "image/jpeg" ∧
      ∃ cur, getCanvasSizeKB c 0 (ui.qualityRange / 100) = some cur ∧ cur ≠ 0 ∧
        10 ≤ |cur - t| ∧ searchLoop c t 12 (initSearch (ui.qualityRange / 100) cur) = (s, stop) ∧
        (adjustToTargetKB c ui t).ui = applyBest ui s.bestQuality ∧
        (adjustToTargetKB c ui t).calls = s.calls := by
  rcases adjust_cases c ui t with ⟨_, he⟩ | ⟨_, _, he⟩ | ⟨_, _, _, _, _, he⟩ |
    ⟨hfmt, cur, h1, h2, h3, he⟩
  · rw [he] at h; simp at h
  · rw [he] at h; simp at h
  · rw [he] at h; simp at h
  · rw [he] at h
    simp only [Path.searched.injEq] at h
    refine ⟨hfmt, cur, h1, h2, h3, Prod.ext h.1 h.2, ?_, ?_⟩
    · rw [he, h.1]
    · rw [he, h.1]

/-! ## Rounding and clamping -/

theorem clamp_bounds (b : ℚ) :
    (1 : ℚ) / 10 ≤ max (1 / 10) (min 1 b) ∧ max (1 / 10) (min 1 b) ≤ 1 :=
  ⟨le_max_left _ _, max_le (by norm_num) (min_le_left _ _)⟩

theorem mathRound_clamp_bounds (b : ℚ) :
    10 ≤ mathRound (max (1 / 10) (min 1 b) * 100) ∧
      mathRound (max (1 / 10) (min 1 b) * 100) ≤ 100 := by
  obtain ⟨h1, h2⟩ := clamp_bounds b
  unfold mathRound
  constructor
  · apply Int.le_floor.2
    push_cast
    linarith
  · have : ⌊max (1 / 10) (min 1 b) * 100 + 1 / 2⌋ < 101 := by
      apply Int.floor_lt.2
      push_cast
      linarith
    omega

theorem mathRound_near (y : ℚ) : |((mathRound y : ℤ) : ℚ) - y| ≤ 1 / 2 := by
  unfold mathRound
  have h1 := Int.floor_le (y + 1 / 2)
  have h2 := Int.lt_floor_add_one (y + 1 / 2)
  rw [abs_le]
  constructor <;> linarith

/-- After a run that reached the search the quality lies between 0.1 and 1. -/
theorem quality_applyBest (ui : Controls) (b : ℚ) :
    1 / 10 ≤ quality (applyBest ui b) ∧ quality (applyBest ui b) ≤ 1 := by
  obtain ⟨h1, h2⟩ := mathRound_clamp_bounds b
  have h1q : (10 : ℚ) ≤ (mathRound (max (1 / 10) (min 1 b) * 100) : ℚ) := by exact_mod_cast h1
  have h2q : (mathRound (max (1 / 10) (min 1 b) * 100) : ℚ) ≤ 100 := by exact_mod_cast h2
  simp only [quality, applyBest, updateNewInfo]
  constructor <;> linarith

/-- When a bisection probe has succeeded, `bestQuality` is a bisection midpoint, strictly
between 0.1 and 1. -/
theorem best_inside {t q0 cur : ℚ} {s : Search} (h : Inv t q0 cur s) (hne : s.probes.tail ≠ []) :
    1 / 10 < s.bestQuality ∧ s.bestQuality < 1 := by
  rcases h.best with ⟨hnil, _, _⟩ | ⟨p, hp, hpq, _, _⟩
  · exact absurd hnil hne
  · rw [← hpq]; exact h.inside p hp

/-! ## Encoders that are functions of the quality -/

theorem getCanvasSizeKB_pure (f : ℚ → ℕ) (i : ℕ) (q : ℚ) :
    getCanvasSizeKB (pureCanvas f) i q = some ((f q : ℚ) / 1024) := rfl

theorem stepEncoder_mono : Monotone stepEncoder := by
  intro a b hab
  unfold stepEncoder
  split_ifs <;> first | omega | (exfalso; linarith)

theorem emptyBelowEncoder_mono : Monotone emptyBelowEncoder := by
  intro a b hab
  unfold emptyBelowEncoder
  split_ifs <;> first | omega | (exfalso; linarith)

theorem linearEncoder_mono : Monotone linearEncoder := by
  intro a b hab
  unfold linearEncoder
  exact Int.toNat_le_toNat (Int.floor_mono (by linarith))

/-! ## Claims -/

/-- C4: for every encoder, target and initial state of the controls, one invocation of
`adjustToTargetKB` calls `getCanvasSizeKB` at most 1 + 12 = 13 times.  The embedding is a
total function whose loop recurses on the 12 iterations of the `for` statement, so the
search always terminates. -/
theorem adjustToTargetKB_calls_le (c : Canvas) (ui : Controls) (t : ℚ) :
    (adjustToTargetKB c ui t).calls ≤ 1 + 12 := by
  rcases adjust_cases c ui t with ⟨_, he⟩ | ⟨_, _, he⟩ | ⟨_, _, _, _, _, he⟩ |
    ⟨_, cur, _, _, _, he⟩
  · rw [he]; simp
  · rw [he]; simp
  · rw [he]; simp
  · rw [he]
    have := searchLoop_calls_le c t 12 (initSearch (ui.qualityRange / 100) cur)
    simp only [initSearch] at this ⊢
    omega

/-- C3: with the JPEG format selected, if the first probe at the initial quality returns a
size within 10 KB of the target, `adjustToTargetKB` leaves the slider, its label and hence
the quality as they were and has called `getCanvasSizeKB` exactly once. -/
theorem early_exit_single_probe (c : Canvas) (ui : Controls) (t cur : ℚ)
    (hfmt : ui.formatSelect = "image/jpeg")
    (hfirst : getCanvasSizeKB c 0 (quality ui) = some cur)
    (hclose : |cur - t| < 10) :
    quality (adjustToTargetKB c ui t).ui = quality ui ∧
      (adjustToTargetKB c ui t).ui.qualityRange = ui.qualityRange ∧
      (adjustToTargetKB c ui t).ui.qualityValue = ui.qualityValue ∧
      (adjustToTargetKB c ui t).calls = 1 := by
  unfold quality at hfirst
  rcases adjust_cases c ui t with ⟨hne, _⟩ | ⟨_, _, he⟩ | ⟨_, _, _, _, _, he⟩ |
    ⟨_, cur1, h1, _, h3, _⟩
  · exact absurd hfmt hne
  · rw [he]; simp
  · rw [he]; simp [updateNewInfo, quality]
  · rw [hfirst] at h1
    simp at h1
    rw [h1] at hclose
    exact absurd hclose (not_lt.2 h3)

theorem early_exit_single_probe_witness :
    quality (adjustToTargetKB (constantCanvas 105) (jpegAt 80) 100).ui = quality (jpegAt 80) ∧
      (adjustToTargetKB (constantCanvas 105) (jpegAt 80) 100).ui.qualityRange = 80 ∧
      (adjustToTargetKB (constantCanvas 105) (jpegAt 80) 100).ui.qualityValue = 80 ∧
      (adjustToTargetKB (constantCanvas 105) (jpegAt 80) 100).calls = 1 :=
  early_exit_single_probe (constantCanvas 105) (jpegAt 80) 100 105 (by decide!) (by decide!)
    (by decide!)

/-- C6: with the JPEG format selected, if the first probe produces no blob (or an empty one,
which the source treats alike), `adjustToTargetKB` returns normally after that single call
of `getCanvasSizeKB` and leaves every control, the slider and its label included, exactly as
it was. -/
theorem first_probe_failure_changes_nothing (c : Canvas) (ui : Controls) (t : ℚ)
    (hfmt : ui.formatSelect = "image/jpeg")
    (hfail : getCanvasSizeKB c 0 (quality ui) = none ∨
      getCanvasSizeKB c 0 (quality ui) = some 0) :
    (adjustToTargetKB c ui t).ui = ui ∧ (adjustToTargetKB c ui t).calls = 1 ∧
      (adjustToTargetKB c ui t).path = Path.firstProbeFailed := by
  unfold quality at hfail
  rcases adjust_cases c ui t with ⟨hne, _⟩ | ⟨_, _, he⟩ | ⟨_, cur, h1, h2, _, _⟩ |
    ⟨_, cur, h1, h2, _, _⟩
  · exact absurd hfmt hne
  · rw [he]; simp
  · rcases hfail with hf | hf <;> rw [hf] at h1 <;> simp at h1
    exact absurd h1.symm h2
  · rcases hfail with hf | hf <;> rw [hf] at h1 <;> simp at h1
    exact absurd h1.symm h2

theorem first_probe_failure_changes_nothing_witness :
    (adjustToTargetKB failingCanvas (jpegAt 80) 100).ui = jpegAt 80 ∧
      (adjustToTargetKB failingCanvas (jpegAt 80) 100).calls = 1 ∧
      (adjustToTargetKB failingCanvas (jpegAt 80) 100).path = Path.firstProbeFailed :=
  first_probe_failure_changes_nothing failingCanvas (jpegAt 80) 100 (by decide!)
    (Or.inl (by decide!))

/-- C8, as the claim states it, fails: with the PNG format selected `adjustToTargetKB` makes
no call of `getCanvasSizeKB` at all, not exactly one. -/
theorem format_guard_probe_count_counterexample :
    (pngAt 80).formatSelect ≠ "image/jpeg" ∧
      ¬ ((adjustToTargetKB (constantCanvas 500) (pngAt 80) 100).calls = 1) := by
  decide!

/-- C8, amended: when the selected format is not `image/jpeg`, `adjustToTargetKB` returns at
its first line: it makes no call of `getCanvasSizeKB` (neither the first probe nor any
bisection probe) and leaves every control unchanged; the click handler does not even invoke
it for such a format. -/
theorem format_guard_is_noop (c : Canvas) (ui : Controls) (t : ℚ) (tk : Option ℤ)
    (hfmt : ui.formatSelect ≠ "image/jpeg") :
    adjustToTargetKB c ui t = ⟨ui, 0, Path.formatGuard⟩ ∧
      quality (adjustToTargetKB c ui t).ui = quality ui ∧
      (adjustToTargetKB c ui t).calls = 0 ∧
      resizeClickTail c ui tk = none := by
  have he : adjustToTargetKB c ui t = ⟨ui, 0, Path.formatGuard⟩ := by
    simp [adjustToTargetKB, hfmt]
  refine ⟨he, by rw [he], by rw [he], ?_⟩
  cases tk with
  | none => rfl
  | some v => simp [resizeClickTail, hfmt]

theorem format_guard_is_noop_witness :
    adjustToTargetKB (constantCanvas 500) (pngAt 80) 100 = ⟨pngAt 80, 0, Path.formatGuard⟩ ∧
      quality (adjustToTargetKB (constantCanvas 500) (pngAt 80) 100).ui = quality (pngAt 80) ∧
      (adjustToTargetKB (constantCanvas 500) (pngAt 80) 100).calls = 0 ∧
      resizeClickTail (constantCanvas 500) (pngAt 80) (some 100) = none :=
  format_guard_is_noop (constantCanvas 500) (pngAt 80) 100 (some 100) (by decide!)

/-- C2, as the claim states it, fails: with the slider at 5 percent (initial quality 0.05,
inside (0,1]) and an encoder whose first probe fails, the quality left in place is still
0.05, below 0.1. -/
theorem quality_below_lower_bound_counterexample :
    (0 : ℚ) < 100 ∧ 0 < quality (jpegAt 5) ∧ quality (jpegAt 5) ≤ 1 ∧
      (adjustToTargetKB failingCanvas (jpegAt 5) 100).path = Path.firstProbeFailed ∧
      ¬ (1 / 10 ≤ quality (adjustToTargetKB failingCanvas (jpegAt 5) 100).ui) := by
  decide!

/-- C2, amended: for every encoder, every target > 0 and every initial quality in (0,1], the
quality left in place lies in [0.1, 1.0] when the search was run to its end (lines 339-342);
on the three early returns (format guard, failed first probe, early exit) it is the initial
quality, unchanged and not clamped; so in every case it lies in (0,1]. -/
theorem quality_after_run (c : Canvas) (ui : Controls) (t : ℚ) (_ht : 0 < t)
    (h0 : 0 < quality ui) (h1 : quality ui ≤ 1) :
    (∀ s stop, (adjustToTargetKB c ui t).path = Path.searched s stop →
        1 / 10 ≤ quality (adjustToTargetKB c ui t).ui ∧
          quality (adjustToTargetKB c ui t).ui ≤ 1) ∧
      ((adjustToTargetKB c ui t).path = Path.formatGuard ∨
          (adjustToTargetKB c ui t).path = Path.firstProbeFailed ∨
          (adjustToTargetKB c ui t).path = Path.earlyExit →
        quality (adjustToTargetKB c ui t).ui = quality ui) ∧
      0 < quality (adjustToTargetKB c ui t).ui ∧ quality (adjustToTargetKB c ui t).ui ≤ 1 := by
  rcases adjust_cases c ui t with ⟨_, he⟩ | ⟨_, _, he⟩ | ⟨_, _, _, _, _, he⟩ |
    ⟨_, cur, _, _, _, he⟩
  · rw [he]; simp [h0, h1]
  · rw [he]; simp [h0, h1]
  · rw [he]
    have hq : quality (updateNewInfo ui) = quality ui := rfl
    simp [hq, h0, h1]
  · rw [he]
    obtain ⟨a, b⟩ := quality_applyBest ui
      (searchLoop c t 12 (initSearch (ui.qualityRange / 100) cur)).1.bestQuality
    refine ⟨fun _ _ _ => ⟨a, b⟩, ?_, by linarith, b⟩
    intro h
    simp at h

theorem quality_after_run_witness :
    (∀ s stop, (adjustToTargetKB closeAtInitial (jpegAt 80) 100).path = Path.searched s stop →
        1 / 10 ≤ quality (adjustToTargetKB closeAtInitial (jpegAt 80) 100).ui ∧
          quality (adjustToTargetKB closeAtInitial (jpegAt 80) 100).ui ≤ 1) ∧
      ((adjustToTargetKB closeAtInitial (jpegAt 80) 100).path = Path.formatGuard ∨
          (adjustToTargetKB closeAtInitial (jpegAt 80) 100).path = Path.firstProbeFailed ∨
          (adjustToTargetKB closeAtInitial (jpegAt 80) 100).path = Path.earlyExit →
        quality (adjustToTargetKB closeAtInitial (jpegAt 80) 100).ui = quality (jpegAt 80)) ∧
      0 < quality (adjustToTargetKB closeAtInitial (jpegAt 80) 100).ui ∧
      quality (adjustToTargetKB closeAtInitial (jpegAt 80) 100).ui ≤ 1 :=
  quality_after_run closeAtInitial (jpegAt 80) 100 (by decide!) (by decide!) (by decide!)

/-- C10: whenever `adjustToTargetKB` reaches the end of the search, the value written to the
slider (and shown by its label) is `Math.round(100 * clamp(bestQuality, 0.1, 1.0))`, an
integer between 10 and 100; when at least one bisection probe succeeded it differs from
`100 * bestQuality` by at most 0.5.  The applied quality need not be a probed one: for the
step encoder the best probe is at 0.325 and the slider is set to 33. -/
theorem slider_gets_rounded_best (c : Canvas) (ui : Controls) (t : ℚ) (s : Search)
    (stop : Stop) (h : (adjustToTargetKB c ui t).path = Path.searched s stop) :
    (adjustToTargetKB c ui t).ui.qualityRange =
        (mathRound (100 * max (1 / 10) (min 1 s.bestQuality)) : ℚ) ∧
      (adjustToTargetKB c ui t).ui.qualityValue = (adjustToTargetKB c ui t).ui.qualityRange ∧
      10 ≤ mathRound (100 * max (1 / 10) (min 1 s.bestQuality)) ∧
      mathRound (100 * max (1 / 10) (min 1 s.bestQuality)) ≤ 100 ∧
      (s.probes.tail ≠ [] →
        |(adjustToTargetKB c ui t).ui.qualityRange - 100 * s.bestQuality| ≤ 1 / 2) ∧
      ∃ c1 ui1 t1 s1 stop1, (adjustToTargetKB c1 ui1 t1).path = Path.searched s1 stop1 ∧
        ∀ p ∈ s1.probes, p.1 ≠ quality (adjustToTargetKB c1 ui1 t1).ui := by
  obtain ⟨_, cur, _, _, _, hloop, hui, _⟩ := adjust_searched h
  have hinv := inv_loop c 12 (inv_init t (ui.qualityRange / 100) cur)
  rw [hloop] at hinv
  have hcomm : 100 * max (1 / 10) (min 1 s.bestQuality) =
      max (1 / 10) (min 1 s.bestQuality) * 100 := mul_comm _ _
  obtain ⟨hb1, hb2⟩ := mathRound_clamp_bounds s.bestQuality
  rw [hui, hcomm]
  refine ⟨rfl, rfl, hb1, hb2, ?_, ?_⟩
  · intro hne
    obtain ⟨h1, h2⟩ := best_inside hinv hne
    have hclamp : max (1 / 10) (min 1 s.bestQuality) = s.bestQuality := by
      rw [min_eq_right (le_of_lt h2), max_eq_right (le_of_lt h1)]
    show |((mathRound (max (1 / 10) (min 1 s.bestQuality) * 100) : ℤ) : ℚ) -
      100 * s.bestQuality| ≤ 1 / 2
    rw [hclamp, mul_comm 100 s.bestQuality]
    exact mathRound_near _
  · exact ⟨pureCanvas stepEncoder, jpegAt 80, 100,
      (searchLoop (pureCanvas stepEncoder) 100 12 (initSearch (4 / 5) 1000)).1,
      (searchLoop (pureCanvas stepEncoder) 100 12 (initSearch (4 / 5) 1000)).2,
      by decide!, by decide!⟩

theorem slider_gets_rounded_best_witness :
    (adjustToTargetKB (pureCanvas stepEncoder) (jpegAt 80) 100).ui.qualityRange = 33 ∧
      (searchLoop (pureCanvas stepEncoder) 100 12 (initSearch (4 / 5) 1000)).1.bestQuality =
        13 / 40 ∧
      |(adjustToTargetKB (pureCanvas stepEncoder) (jpegAt 80) 100).ui.qualityRange -
          100 * (searchLoop (pureCanvas stepEncoder) 100 12
            (initSearch (4 / 5) 1000)).1.bestQuality| ≤ 1 / 2 :=
  ⟨by decide!, by decide!,
    (slider_gets_rounded_best (pureCanvas stepEncoder) (jpegAt 80) 100
      (searchLoop (pureCanvas stepEncoder) 100 12 (initSearch (4 / 5) 1000)).1
      (searchLoop (pureCanvas stepEncoder) 100 12 (initSearch (4 / 5) 1000)).2
      (by decide!)).2.2.2.2.1 (by decide!)⟩

/-- C1, as the claim states it, fails: against an encoder giving 111 KB at the initial
quality 0.8 and 1000 KB elsewhere, with target 100 KB, the initial probe (difference 11) is
strictly closer than every bisection probe (difference 900), yet the search ends with
`bestQuality = 0.55`, which is not a closest probe of the invocation. -/
theorem best_ignores_initial_probe_counterexample :
    (adjustToTargetKB closeAtInitial (jpegAt 80) 100).path =
        Path.searched (searchLoop closeAtInitial 100 12 (initSearch (4 / 5) 111)).1
          (searchLoop closeAtInitial 100 12 (initSearch (4 / 5) 111)).2 ∧
      (searchLoop closeAtInitial 100 12 (initSearch (4 / 5) 111)).1.probes.head? =
        some (4 / 5, 111) ∧
      (∀ p ∈ (searchLoop closeAtInitial 100 12 (initSearch (4 / 5) 111)).1.probes.tail,
        diffTo 100 (4 / 5, 111) < diffTo 100 p) ∧
      (searchLoop closeAtInitial 100 12 (initSearch (4 / 5) 111)).1.bestQuality = 11 / 20 ∧
      ¬ IsClosest 100 (searchLoop closeAtInitial 100 12 (initSearch (4 / 5) 111)).1.probes
        (searchLoop closeAtInitial 100 12 (initSearch (4 / 5) 111)).1.bestQuality := by
  decide!

/-- C1, amended: when the search ends, the log of successful probes starts with the initial
probe at `initialQuality`; if a bisection probe succeeded, `bestQuality` is the quality of a
bisection probe whose size has the smallest absolute difference from the target among the
successful bisection probes; if none succeeded, `bestQuality` is `initialQuality`.  The
initial probe is not compared (`bestDiff` starts at `Infinity`). -/
theorem best_is_closest_bisection_probe (c : Canvas) (ui : Controls) (t : ℚ) (s : Search)
    (stop : Stop) (h : (adjustToTargetKB c ui t).path = Path.searched s stop) :
    (∃ cur, getCanvasSizeKB c 0 (quality ui) = some cur ∧
        s.probes.head? = some (quality ui, cur)) ∧
      (s.probes.tail = [] → s.bestQuality = quality ui) ∧
      (s.probes.tail ≠ [] → IsClosest t s.probes.tail s.bestQuality) := by
  obtain ⟨_, cur, hfirst, _, _, hloop, _, _⟩ := adjust_searched h
  have hinv := inv_loop c 12 (inv_init t (ui.qualityRange / 100) cur)
  rw [hloop] at hinv
  refine ⟨⟨cur, hfirst, hinv.head⟩, ?_, ?_⟩
  · intro hnil
    rcases hinv.best with ⟨_, _, hq⟩ | ⟨p, hp, _, _, _⟩
    · exact hq
    · rw [hnil] at hp; simp at hp
  · intro hne
    rcases hinv.best with ⟨hnil, _, _⟩ | ⟨p, hp, hpq, _, hmin⟩
    · exact absurd hnil hne
    · exact ⟨p, hp, hpq, hmin⟩

theorem best_is_closest_bisection_probe_witness :
    (∃ cur, getCanvasSizeKB closeAtInitial 0 (quality (jpegAt 80)) = some cur ∧
        (searchLoop closeAtInitial 100 12 (initSearch (4 / 5) 111)).1.probes.head? =
          some (quality (jpegAt 80), cur)) ∧
      ((searchLoop closeAtInitial 100 12 (initSearch (4 / 5) 111)).1.probes.tail = [] →
        (searchLoop closeAtInitial 100 12 (initSearch (4 / 5) 111)).1.bestQuality =
          quality (jpegAt 80)) ∧
      ((searchLoop closeAtInitial 100 12 (initSearch (4 / 5) 111)).1.probes.tail ≠ [] →
        IsClosest 100 (searchLoop closeAtInitial 100 12 (initSearch (4 / 5) 111)).1.probes.tail
          (searchLoop closeAtInitial 100 12 (initSearch (4 / 5) 111)).1.bestQuality) :=
  best_is_closest_bisection_probe closeAtInitial (jpegAt 80) 100
    (searchLoop closeAtInitial 100 12 (initSearch (4 / 5) 111)).1
    (searchLoop closeAtInitial 100 12 (initSearch (4 / 5) 111)).2 (by decide!)

/-- C5, as the claim states it, fails at n = 5: the first probe returns 111 KB (target
100 KB: no early exit), probes 2 to 4 return 1000 KB and probe 5 fails.  The run makes five
calls and ends normally, but with quality 0.55, the quality of probe 2, although probe 1 at
0.8 is the closest of probes 1 to 4. -/
theorem failure_on_fifth_probe_counterexample :
    (adjustToTargetKB failsOnFifth (jpegAt 80) 100).path =
        Path.searched (searchLoop failsOnFifth 100 12 (initSearch (4 / 5) 111)).1
          Stop.encoderFailed ∧
      (adjustToTargetKB failsOnFifth (jpegAt 80) 100).calls = 5 ∧
      (searchLoop failsOnFifth 100 12 (initSearch (4 / 5) 111)).1.probes =
        [(4 / 5, 111), (11 / 20, 1000), (13 / 40, 1000), (17 / 80, 1000)] ∧
      IsClosest 100 (searchLoop failsOnFifth 100 12 (initSearch (4 / 5) 111)).1.probes
        (4 / 5) ∧
      quality (adjustToTargetKB failsOnFifth (jpegAt 80) 100).ui = 11 / 20 ∧
      ¬ IsClosest 100 (searchLoop failsOnFifth 100 12 (initSearch (4 / 5) 111)).1.probes
        (quality (adjustToTargetKB failsOnFifth (jpegAt 80) 100).ui) := by
  decide!

/-- C5, amended: let the first probe succeed without early exit, let the loop reach
iteration `k` (`k ≤ 11`, so `k` bisection probes succeeded without a tight-tolerance stop)
with locals `s`, and let probe `n = k + 2` fail.  Then `adjustToTargetKB` issues no further
probe (`n` calls in all), ends normally through lines 339-342 and writes to the slider the
clamped `bestQuality` of `s` rounded to a whole percent, where `bestQuality` is
`initialQuality` when `n = 2` and otherwise the quality of a closest probe among the
bisection probes 2 to n-1 (the initial probe is not compared). -/
theorem encoder_failure_keeps_best_bisection_probe (c : Canvas) (ui : Controls) (t cur : ℚ)
    (k : ℕ) (s : Search)
    (hfmt : ui.formatSelect = "image/jpeg")
    (hfirst : getCanvasSizeKB c 0 (quality ui) = some cur) (hcur : cur ≠ 0)
    (hfar : 10 ≤ |cur - t|) (hk : k ≤ 11)
    (hreach : stateAt c t (initSearch (quality ui) cur) k = some s)
    (hfail : getCanvasSizeKB c s.calls ((s.low + s.high) / 2) = none ∨
      getCanvasSizeKB c s.calls ((s.low + s.high) / 2) = some 0) :
    (adjustToTargetKB c ui t).calls = k + 2 ∧
      (adjustToTargetKB c ui t).path =
        Path.searched { s with calls := s.calls + 1 } Stop.encoderFailed ∧
      (adjustToTargetKB c ui t).ui = applyBest ui s.bestQuality ∧
      (adjustToTargetKB c ui t).ui.qualityRange =
        (mathRound (max (1 / 10) (min 1 s.bestQuality) * 100) : ℚ) ∧
      s.probes.length = k + 1 ∧
      (k = 0 → s.bestQuality = quality ui) ∧
      (0 < k → IsClosest t s.probes.tail s.bestQuality) := by
  unfold quality at hfirst hreach
  have hinv := inv_stateAt c (inv_init t (ui.qualityRange / 100) cur) k hreach
  obtain ⟨_, hcalls, hlen⟩ := stateAt_counts c t _ k hreach
  have hstep : searchStep c t s = ({ s with calls := s.calls + 1 }, some Stop.encoderFailed) := by
    rcases searchStep_cases c t s with ⟨_, hs⟩ | ⟨sz, h1, h2, _⟩
    · exact hs
    · rcases hfail with hf | hf <;> rw [hf] at h1 <;> simp at h1
      exact absurd h1.symm h2
  have hloop : searchLoop c t 12 (initSearch (ui.qualityRange / 100) cur) =
      ({ s with calls := s.calls + 1 }, Stop.encoderFailed) := by
    have h12 : 12 = k + ((11 - k) + 1) := by omega
    rw [h12, searchLoop_of_stateAt c t _ k _ hreach, searchLoop_of_break _ hstep]
  have hrun : adjustToTargetKB c ui t =
      ⟨applyBest ui s.bestQuality, s.calls + 1,
        Path.searched { s with calls := s.calls + 1 } Stop.encoderFailed⟩ := by
    rcases adjust_cases c ui t with ⟨hne, _⟩ | ⟨_, hf, _⟩ | ⟨_, cur1, h1, _, h3, _⟩ |
      ⟨_, cur1, h1, _, _, he⟩
    · exact absurd hfmt hne
    · rcases hf with hf | hf <;> rw [hf] at hfirst <;> simp at hfirst
      exact absurd hfirst.symm hcur
    · rw [hfirst] at h1; simp at h1; rw [h1] at hfar
      exact absurd h3 (not_lt.2 hfar)
    · rw [hfirst] at h1; simp at h1
      rw [he, ← h1, hloop]
  simp only [initSearch] at hcalls hlen
  rw [hrun]
  have hlen1 : s.probes.length = k + 1 := by
    simp only [List.length_cons, List.length_nil] at hlen
    omega
  refine ⟨by simp only; omega, rfl, rfl, rfl, hlen1, ?_, ?_⟩
  · intro hk0
    have hnil : s.probes.tail = [] := by
      have : s.probes.tail.length = 0 := by rw [List.length_tail, hlen, hk0]; simp
      exact List.length_eq_zero.1 this
    rcases hinv.best with ⟨_, _, hq⟩ | ⟨p, hp, _, _, _⟩
    · exact hq
    · rw [hnil] at hp; simp at hp
  · intro hkpos
    have hne : s.probes.tail ≠ [] := by
      intro hnil
      have : s.probes.tail.length = k := by rw [List.length_tail, hlen]; simp
      rw [hnil] at this
      simp at this
      omega
    rcases hinv.best with ⟨hnil, _, _⟩ | ⟨p, hp, hpq, _, hmin⟩
    · exact absurd hnil hne
    · exact ⟨p, hp, hpq, hmin⟩

theorem encoder_failure_keeps_best_bisection_probe_witness :
    (adjustToTargetKB failsOnFifth (jpegAt 80) 100).calls = 3 + 2 ∧
      (adjustToTargetKB failsOnFifth (jpegAt 80) 100).path =
        Path.searched { fifthLocals3 with calls := fifthLocals3.calls + 1 }
          Stop.encoderFailed ∧
      (adjustToTargetKB failsOnFifth (jpegAt 80) 100).ui =
        applyBest (jpegAt 80) fifthLocals3.bestQuality ∧
      (adjustToTargetKB failsOnFifth (jpegAt 80) 100).ui.qualityRange =
        (mathRound (max (1 / 10) (min 1 fifthLocals3.bestQuality) * 100) : ℚ) ∧
      fifthLocals3.probes.length = 3 + 1 ∧
      (3 = 0 → fifthLocals3.bestQuality = quality (jpegAt 80)) ∧
      (0 < 3 → IsClosest 100 fifthLocals3.probes.tail fifthLocals3.bestQuality) :=
  encoder_failure_keeps_best_bisection_probe failsOnFifth (jpegAt 80) 100 111 3 fifthLocals3
    (by decide!) (by decide!) (by decide!) (by decide!) (by decide!) (by decide!)
    (Or.inl (by decide!))

/-- C7, as the claim states it, fails, for two reasons.  (a) Against the monotone step
encoder (50 KB at 0.1, 1000 KB at 1.0, target 100 KB) the loop stops on the tight tolerance
after two of its twelve iterations, at the probe 0.325 of size 100 KB, but the quality it
leaves is 0.33, whose encoded size is 1000 KB.  (b) Against a monotone encoder that never
fails but produces an empty blob below quality 0.9, the loop stops at its first probe
(an empty blob counts as a failure) and leaves quality 0.95, of size 200 KB for a target of
100 KB, with the budget not used up. -/
theorem tolerance_convergence_counterexample :
    (Monotone stepEncoder ∧ ((stepEncoder (1 / 10) : ℕ) : ℚ) / 1024 < 100 ∧
        (100 : ℚ) < ((stepEncoder 1 : ℕ) : ℚ) / 1024 ∧
        (adjustToTargetKB (pureCanvas stepEncoder) (jpegAt 80) 100).path =
          Path.searched (searchLoop (pureCanvas stepEncoder) 100 12 (initSearch (4 / 5) 1000)).1
            Stop.tight ∧
        (adjustToTargetKB (pureCanvas stepEncoder) (jpegAt 80) 100).calls = 3 ∧
        quality (adjustToTargetKB (pureCanvas stepEncoder) (jpegAt 80) 100).ui = 33 / 100 ∧
        ¬ |((stepEncoder
              (quality (adjustToTargetKB (pureCanvas stepEncoder) (jpegAt 80) 100).ui) : ℕ) : ℚ) /
            1024 - 100| ≤ 12) ∧
      (Monotone emptyBelowEncoder ∧ ((emptyBelowEncoder (1 / 10) : ℕ) : ℚ) / 1024 < 100 ∧
        (100 : ℚ) < ((emptyBelowEncoder 1 : ℕ) : ℚ) / 1024 ∧
        (adjustToTargetKB (pureCanvas emptyBelowEncoder) (jpegAt 95) 100).path =
          Path.searched
            (searchLoop (pureCanvas emptyBelowEncoder) 100 12 (initSearch (19 / 20) 200)).1
            Stop.encoderFailed ∧
        (adjustToTargetKB (pureCanvas emptyBelowEncoder) (jpegAt 95) 100).calls = 2 ∧
        quality (adjustToTargetKB (pureCanvas emptyBelowEncoder) (jpegAt 95) 100).ui =
          95 / 100 ∧
        ¬ |((emptyBelowEncoder
              (quality (adjustToTargetKB (pureCanvas emptyBelowEncoder) (jpegAt 95) 100).ui) :
              ℕ) : ℚ) / 1024 - 100| ≤ 12) :=
  ⟨⟨stepEncoder_mono, by decide!, by decide!, by decide!, by decide!, by decide!, by decide!⟩,
    ⟨emptyBelowEncoder_mono, by decide!, by decide!, by decide!, by decide!, by decide!,
      by decide!⟩⟩

/-- C7, amended: with the JPEG format selected, for every never-failing encoder that is a
monotone function of the quality with size(0.1) below the target and size(1.0) above it, and
whose blobs at 0.1 and at the initial quality are not empty, one of three things happens:
the initial probe is within 10 KB and the quality is left at the initial quality; or the
loop stops on the tight tolerance and the size probed at `bestQuality` is within 12 KB of the
target; or all 12 iterations were used (13 probes).  In the last two cases the quality
applied is `bestQuality` clamped and rounded to a whole percent (lines 339-340), and nothing
is claimed about the size at that rounded quality. -/
theorem tolerance_or_budget (f : ℚ → ℕ) (ui : Controls) (t : ℚ)
    (hfmt : ui.formatSelect = "image/jpeg")
    (hmono : Monotone f)
    (_hlow : (f (1 / 10) : ℚ) / 1024 < t) (_hhigh : t < (f 1 : ℚ) / 1024)
    (hpos : 0 < f (1 / 10)) (hpos0 : 0 < f (quality ui)) :
    ((adjustToTargetKB (pureCanvas f) ui t).path = Path.earlyExit ∧
        quality (adjustToTargetKB (pureCanvas f) ui t).ui = quality ui ∧
        |(f (quality ui) : ℚ) / 1024 - t| < 10) ∨
      ∃ s stop, (adjustToTargetKB (pureCanvas f) ui t).path = Path.searched s stop ∧
        (adjustToTargetKB (pureCanvas f) ui t).ui = applyBest ui s.bestQuality ∧
        ((stop = Stop.tight ∧ |(f s.bestQuality : ℚ) / 1024 - t| ≤ 12) ∨
          (stop = Stop.budget ∧ (adjustToTargetKB (pureCanvas f) ui t).calls = 13)) := by
  unfold quality at hpos0 ⊢
  have hne0 : ∀ q : ℚ, 0 < f q → ((f q : ℕ) : ℚ) / 1024 ≠ 0 := fun q hq => by
    have : (0 : ℚ) < (f q : ℚ) := by exact_mod_cast hq
    positivity
  rcases adjust_cases (pureCanvas f) ui t with ⟨hne, _⟩ | ⟨_, hf, _⟩ |
    ⟨_, cur, h1, _, h3, he⟩ | ⟨_, cur, h1, _, _, he⟩
  · exact absurd hfmt hne
  · rw [getCanvasSizeKB_pure] at hf
    rcases hf with hf | hf
    · simp at hf
    · simp only [Option.some.injEq] at hf
      exact absurd hf (hne0 _ hpos0)
  · left
    rw [getCanvasSizeKB_pure] at h1
    simp only [Option.some.injEq] at h1
    rw [he]
    refine ⟨rfl, rfl, ?_⟩
    rw [h1]; exact h3
  · right
    rw [getCanvasSizeKB_pure] at h1
    simp only [Option.some.injEq] at h1
    have hinit := inv_init t (ui.qualityRange / 100) cur
    have hinv := inv_loop (pureCanvas f) 12 hinit
    have hlog := probes_loop (pureCanvas f) t (fun p => p.2 = ((f p.1 : ℕ) : ℚ) / 1024)
      (fun i q sz hsz => by
        rw [getCanvasSizeKB_pure] at hsz
        simp only [Option.some.injEq] at hsz
        exact hsz.symm) 12
      (s := initSearch (ui.qualityRange / 100) cur)
      (fun p hp => by
        simp only [initSearch, List.mem_singleton] at hp
        rw [hp]; exact h1.symm)
    rw [he]
    refine ⟨_, _, rfl, rfl, ?_⟩
    rcases searchLoop_stop (pureCanvas f) 12 hinit with ⟨hb, hc⟩ | ⟨ht, p, hp, hp12⟩ |
      ⟨_, i, q, hq1, _, hfailq⟩
    · right
      refine ⟨hb, ?_⟩
      rw [hc]; rfl
    · left
      refine ⟨ht, ?_⟩
      rcases hinv.best with ⟨hnil, _, _⟩ | ⟨p0, hp0, hpq, _, hmin⟩
      · rw [hnil] at hp; simp at hp
      · have hsize := hlog p0 (List.mem_of_mem_tail hp0)
        simp only at hsize
        rw [← hpq, ← hsize]
        exact le_trans (hmin p hp) hp12
    · exfalso
      rw [getCanvasSizeKB_pure] at hfailq
      rcases hfailq with hf | hf
      · simp at hf
      · simp only [Option.some.injEq] at hf
        have hle : f (1 / 10) ≤ f q := hmono (le_of_lt hq1)
        exact hne0 q (lt_of_lt_of_le hpos hle) hf

theorem tolerance_or_budget_witness :
    (((adjustToTargetKB (pureCanvas linearEncoder) (jpegAt 80) (3125 / 16)).path =
          Path.earlyExit ∧
        quality (adjustToTargetKB (pureCanvas linearEncoder) (jpegAt 80) (3125 / 16)).ui =
          quality (jpegAt 80) ∧
        |(linearEncoder (quality (jpegAt 80)) : ℚ) / 1024 - 3125 / 16| < 10) ∨
      ∃ s stop,
        (adjustToTargetKB (pureCanvas linearEncoder) (jpegAt 80) (3125 / 16)).path =
          Path.searched s stop ∧
        (adjustToTargetKB (pureCanvas linearEncoder) (jpegAt 80) (3125 / 16)).ui =
          applyBest (jpegAt 80) s.bestQuality ∧
        ((stop = Stop.tight ∧ |(linearEncoder s.bestQuality : ℚ) / 1024 - 3125 / 16| ≤ 12) ∨
          (stop = Stop.budget ∧
            (adjustToTargetKB (pureCanvas linearEncoder) (jpegAt 80) (3125 / 16)).calls =
              13))) ∧
      (adjustToTargetKB (pureCanvas linearEncoder) (jpegAt 80) (3125 / 16)).calls = 5 ∧
      (adjustToTargetKB (pureCanvas linearEncoder) (jpegAt 80) (3125 / 16)).ui.qualityRange =
        38 ∧
      |(linearEncoder (38 / 100) : ℚ) / 1024 - 3125 / 16| ≤ 12 :=
  ⟨tolerance_or_budget linearEncoder (jpegAt 80) (3125 / 16) (by decide!) linearEncoder_mono
      (by decide!) (by decide!) (by decide!) (by decide!),
    by decide!, by decide!, by decide!⟩

/-! ## Binary64 rounding -/

theorem floorLog2Aux_eq (fuel n : ℕ) (h : n ≤ fuel) : floorLog2Aux fuel n = Nat.log 2 n := by
  induction fuel generalizing n with
  | zero =>
    have : n = 0 := by omega
    subst this
    simp [floorLog2Aux]
  | succ fuel ih =>
    unfold floorLog2Aux
    split_ifs with h2
    · exact (Nat.log_of_lt h2).symm
    · have h2' : 2 ≤ n := by omega
      rw [Nat.log_of_one_lt_of_le (by norm_num) h2']
      rw [ih (n / 2) (by omega)]

theorem floorLog2_eq (n : ℕ) : floorLog2 n = Nat.log 2 n := floorLog2Aux_eq n n le_rfl


theorem roundHalfEven_near (y : ℚ) : |(roundHalfEven y : ℚ) - y| ≤ 1 / 2 := by
  have h1 := Int.floor_le y
  have h2 := Int.lt_floor_add_one y
  unfold roundHalfEven
  rw [abs_le]
  split_ifs with a b c
  · constructor <;> linarith
  · push_cast; constructor <;> linarith
  · have : y - ⌊y⌋ = 1 / 2 := le_antisymm (not_lt.1 b) (not_lt.1 a)
    constructor <;> linarith
  · have : y - ⌊y⌋ = 1 / 2 := le_antisymm (not_lt.1 b) (not_lt.1 a)
    push_cast; constructor <;> linarith

theorem roundHalfEven_le (y : ℚ) (N : ℤ) (h : y ≤ N) : roundHalfEven y ≤ N := by
  have h1 := Int.floor_le y
  have hfl : ⌊y⌋ ≤ N := by exact_mod_cast le_trans h1 h
  have hup : ¬ y - ⌊y⌋ < 1 / 2 → ⌊y⌋ + 1 ≤ N := fun hn => by
    have : (⌊y⌋ : ℚ) < N := by linarith
    have : ⌊y⌋ < N := by exact_mod_cast this
    omega
  unfold roundHalfEven
  split_ifs with a b c
  · exact hfl
  · exact hup a
  · exact hfl
  · exact hup a

theorem le_roundHalfEven (y : ℚ) (N : ℤ) (h : (N : ℚ) ≤ y) : N ≤ roundHalfEven y := by
  have hfl : N ≤ ⌊y⌋ := Int.le_floor.2 h
  unfold roundHalfEven
  split_ifs <;> omega

/-- A positive rational as the quotient of two naturals. -/
theorem rat_eq_natAbs_div (y : ℚ) (hy : 0 < y) : y = (y.num.natAbs : ℚ) / (y.den : ℚ) := by
  have hnum : 0 < y.num := Rat.num_pos.2 hy
  have hn : ((y.num.natAbs : ℕ) : ℚ) = (y.num : ℚ) := by
    have h := Int.natAbs_of_nonneg (le_of_lt hnum)
    have h2 : (((y.num.natAbs : ℕ) : ℤ) : ℚ) = (y.num : ℚ) := by rw [h]
    rw [← h2, Int.cast_natCast]
  rw [hn]
  exact (Rat.num_div_den y).symm

/-- The exponent chosen by `binade` is a lower bound: `2 ^ binade y ≤ y`. -/
theorem binade_le (y : ℚ) (hy : 0 < y) : (2 : ℚ) ^ binade y ≤ y := by
  unfold binade
  split_ifs with h
  · exact h
  · have hnum : 0 < y.num := Rat.num_pos.2 hy
    have hp : y.num.natAbs ≠ 0 := by
      intro h0
      have := Int.natAbs_eq_zero.1 h0
      omega
    have h1 : 2 ^ Nat.log 2 y.num.natAbs ≤ y.num.natAbs := Nat.pow_log_le_self 2 hp
    have h2 : y.den < 2 ^ (Nat.log 2 y.den).succ := Nat.lt_pow_succ_log_self (by norm_num) _
    have h1q : (2 : ℚ) ^ Nat.log 2 y.num.natAbs ≤ (y.num.natAbs : ℚ) := by exact_mod_cast h1
    have h2q : (y.den : ℚ) ≤ (2 : ℚ) ^ (Nat.log 2 y.den + 1) := by exact_mod_cast le_of_lt h2
    have hden : (0 : ℚ) < y.den := by exact_mod_cast y.den_pos
    have hyeq : y = (y.num.natAbs : ℚ) / (y.den : ℚ) := rat_eq_natAbs_div y hy
    rw [floorLog2_eq, floorLog2_eq]
    have hz : (2 : ℚ) ^ ((Nat.log 2 y.num.natAbs : ℤ) - (Nat.log 2 y.den : ℤ) - 1) =
        (2 : ℚ) ^ Nat.log 2 y.num.natAbs / (2 : ℚ) ^ (Nat.log 2 y.den + 1) := by
      rw [show ((Nat.log 2 y.num.natAbs : ℤ) - (Nat.log 2 y.den : ℤ) - 1) =
        (Nat.log 2 y.num.natAbs : ℤ) - ((Nat.log 2 y.den + 1 : ℕ) : ℤ) by push_cast; ring]
      rw [zpow_sub₀ (by norm_num : (2 : ℚ) ≠ 0), zpow_natCast, zpow_natCast]
    rw [hz]
    conv_rhs => rw [hyeq]
    have hpos2 : (0 : ℚ) < (2 : ℚ) ^ (Nat.log 2 y.den + 1) := by positivity
    rw [div_le_div_iff₀ hpos2 hden]
    have hnn : (0 : ℚ) ≤ (2 : ℚ) ^ Nat.log 2 y.num.natAbs := by positivity
    nlinarith

/-- The exponent chosen by `binade` is exact: `y < 2 ^ (binade y + 1)`. -/
theorem lt_binade_succ (y : ℚ) (hy : 0 < y) : y < (2 : ℚ) ^ (binade y + 1) := by
  unfold binade
  split_ifs with h
  · have hnum : 0 < y.num := Rat.num_pos.2 hy
    have hq : y.den ≠ 0 := y.den_nz
    have h1 : y.num.natAbs < 2 ^ (Nat.log 2 y.num.natAbs).succ :=
      Nat.lt_pow_succ_log_self (by norm_num) _
    have h2 : 2 ^ Nat.log 2 y.den ≤ y.den := Nat.pow_log_le_self 2 hq
    have h1q : (y.num.natAbs : ℚ) < (2 : ℚ) ^ (Nat.log 2 y.num.natAbs + 1) := by
      exact_mod_cast h1
    have h2q : (2 : ℚ) ^ Nat.log 2 y.den ≤ (y.den : ℚ) := by exact_mod_cast h2
    have hden : (0 : ℚ) < y.den := by exact_mod_cast y.den_pos
    have hyeq : y = (y.num.natAbs : ℚ) / (y.den : ℚ) := rat_eq_natAbs_div y hy
    rw [floorLog2_eq, floorLog2_eq]
    have hz : (2 : ℚ) ^ ((Nat.log 2 y.num.natAbs : ℤ) - (Nat.log 2 y.den : ℤ) + 1) =
        (2 : ℚ) ^ (Nat.log 2 y.num.natAbs + 1) / (2 : ℚ) ^ Nat.log 2 y.den := by
      rw [show ((Nat.log 2 y.num.natAbs : ℤ) - (Nat.log 2 y.den : ℤ) + 1) =
        ((Nat.log 2 y.num.natAbs + 1 : ℕ) : ℤ) - (Nat.log 2 y.den : ℤ) by push_cast; ring]
      rw [zpow_sub₀ (by norm_num : (2 : ℚ) ≠ 0), zpow_natCast, zpow_natCast]
    rw [hz]
    conv_lhs => rw [hyeq]
    have hpos2 : (0 : ℚ) < (2 : ℚ) ^ Nat.log 2 y.den := by positivity
    rw [div_lt_div_iff₀ hden hpos2]
    have hnn : (0 : ℚ) ≤ (y.num.natAbs : ℚ) := by positivity
    nlinarith
  · have := lt_of_not_le h
    simpa using this

theorem binade_lt_of_lt (y : ℚ) (hy : 0 < y) (n : ℤ) (h : y < (2 : ℚ) ^ n) : binade y < n := by
  have h1 := lt_of_le_of_lt (binade_le y hy) h
  exact (zpow_lt_zpow_iff_right₀ (by norm_num : (1 : ℚ) < 2)).1 h1

theorem fl_eq (x : ℚ) :
    fl x = (roundHalfEven (x / 2 ^ (binade |x| - 52)) : ℚ) * 2 ^ (binade |x| - 52) := rfl

/-- Rounding error in the binades below 2: half a unit in the last place is at most 2^-53. -/
theorem fl_error (x : ℚ) (h0 : 0 < x) (h2 : x < 2) : |fl x - x| ≤ 1 / 2 ^ 53 := by
  have he : binade |x| < 1 := by
    rw [abs_of_pos h0]
    exact binade_lt_of_lt x h0 1 (by simpa using h2)
  have hu0 : (0 : ℚ) < 2 ^ (binade |x| - 52) := by positivity
  have hu : (2 : ℚ) ^ (binade |x| - 52) ≤ 2 ^ (-52 : ℤ) :=
    zpow_le_zpow_right₀ (by norm_num) (by omega)
  have hu52 : (2 : ℚ) ^ (-52 : ℤ) = 1 / 2 ^ 52 := by norm_num [zpow_neg]
  have hnear := roundHalfEven_near (x / 2 ^ (binade |x| - 52))
  have hx : fl x - x =
      ((roundHalfEven (x / 2 ^ (binade |x| - 52)) : ℚ) - x / 2 ^ (binade |x| - 52)) *
        2 ^ (binade |x| - 52) := by
    rw [fl_eq]
    field_simp
  rw [hx, abs_mul, abs_of_pos hu0]
  calc |((roundHalfEven (x / 2 ^ (binade |x| - 52)) : ℚ) - x / 2 ^ (binade |x| - 52))| *
        2 ^ (binade |x| - 52) ≤ 1 / 2 * (1 / 2 ^ 52) := by
        apply mul_le_mul hnear (by rw [← hu52]; exact hu) (le_of_lt hu0) (by norm_num)
    _ = 1 / 2 ^ 53 := by norm_num

theorem binade_zero : binade |(0 : ℚ)| = -1 := by
  rw [abs_zero]
  decide!

/-- Rounding does not cross the representable value 12. -/
theorem fl_abs_le_twelve (x : ℚ) (h : |x| ≤ 12) : |fl x| ≤ 12 := by
  have he : binade |x| ≤ 3 := by
    by_cases h0 : x = 0
    · rw [h0, binade_zero]; norm_num
    · have hpos : 0 < |x| := abs_pos.2 h0
      have := binade_lt_of_lt |x| hpos 4 (by
        have : (2 : ℚ) ^ (4 : ℤ) = 16 := by norm_num
        rw [this]; linarith)
      omega
  have hu0 : (0 : ℚ) < 2 ^ (binade |x| - 52) := by positivity
  have hN : ((3 * 2 ^ (54 - binade |x|).toNat : ℤ) : ℚ) * 2 ^ (binade |x| - 52) = 12 := by
    have hnn : (0 : ℤ) ≤ 54 - binade |x| := by omega
    push_cast
    rw [← zpow_natCast (2 : ℚ), Int.toNat_of_nonneg hnn, mul_assoc,
      ← zpow_add₀ (by norm_num : (2 : ℚ) ≠ 0)]
    rw [show 54 - binade |x| + (binade |x| - 52) = 2 by ring]
    norm_num
  have hle := abs_le.1 h
  have hup : x / 2 ^ (binade |x| - 52) ≤ ((3 * 2 ^ (54 - binade |x|).toNat : ℤ) : ℚ) := by
    rw [div_le_iff₀ hu0, hN]; exact hle.2
  have hlo : ((-(3 * 2 ^ (54 - binade |x|).toNat) : ℤ) : ℚ) ≤ x / 2 ^ (binade |x| - 52) := by
    rw [le_div_iff₀ hu0, Int.cast_neg, neg_mul, hN]; exact hle.1
  have h1 := roundHalfEven_le _ _ hup
  have h2 := le_roundHalfEven _ _ hlo
  have h1q : (roundHalfEven (x / 2 ^ (binade |x| - 52)) : ℚ) ≤
      ((3 * 2 ^ (54 - binade |x|).toNat : ℤ) : ℚ) := by exact_mod_cast h1
  have h2q : ((-(3 * 2 ^ (54 - binade |x|).toNat) : ℤ) : ℚ) ≤
      (roundHalfEven (x / 2 ^ (binade |x| - 52)) : ℚ) := by exact_mod_cast h2
  rw [fl_eq, abs_le]
  constructor
  · have := mul_le_mul_of_nonneg_right h2q (le_of_lt hu0)
    rw [Int.cast_neg, neg_mul, hN] at this
    exact this
  · have := mul_le_mul_of_nonneg_right h1q (le_of_lt hu0)
    rw [hN] at this
    exact this

theorem fl_tenth : fl (1 / 10) = 3602879701896397 / 36028797018963968 := by decide!

/-! ## The binary64 loop -/

theorem searchStep64_cases (c : Canvas) (t : ℚ) (s : Search) :
    (∃ r, searchStep64 c t s = ({ s with calls := s.calls + 1 }, some r)) ∨
    ∃ sz,
      ((|fl (sz - t)| ≤ 12 ∧
          searchStep64 c t s =
            (recordProbe64 t s (fl (fl (s.low + s.high) / 2)) sz, some Stop.tight)) ∨
        (¬ |fl (sz - t)| ≤ 12 ∧ t < sz ∧
          searchStep64 c t s =
            ({ recordProbe64 t s (fl (fl (s.low + s.high) / 2)) sz with
                high := fl (fl (s.low + s.high) / 2) }, none)) ∨
        (¬ |fl (sz - t)| ≤ 12 ∧ sz ≤ t ∧
          searchStep64 c t s =
            ({ recordProbe64 t s (fl (fl (s.low + s.high) / 2)) sz with
                low := fl (fl (s.low + s.high) / 2) }, none))) := by
  cases h : getCanvasSizeKB64 c s.calls (fl (fl (s.low + s.high) / 2)) with
  | none => left; exact ⟨Stop.encoderFailed, by simp [searchStep64, h]⟩
  | some sz =>
    by_cases h0 : sz = 0
    · left; exact ⟨Stop.encoderFailed, by simp [searchStep64, h, h0]⟩
    · right
      refine ⟨sz, ?_⟩
      by_cases h12 : |fl (sz - t)| ≤ 12
      · left; exact ⟨h12, by simp [searchStep64, h, h0, h12]⟩
      · right
        by_cases hgt : sz > t
        · left; exact ⟨h12, hgt, by simp [searchStep64, h, h0, h12, hgt]⟩
        · right; exact ⟨h12, le_of_not_gt hgt, by simp [searchStep64, h, h0, h12, hgt]⟩

theorem inv64_init (t q0 cur : ℚ) : Inv64 t 0 (initSearch64 q0 cur) := by
  constructor <;> simp [initSearch64]

theorem half_pow_bounds (k : ℕ) (hk : k ≤ 12) :
    (1 : ℚ) / 4096 ≤ (1 / 2) ^ k ∧ ((1 : ℚ) / 2) ^ k ≤ 1 := by
  constructor
  · have h := pow_le_pow_of_le_one (by norm_num : (0 : ℚ) ≤ 1 / 2) (by norm_num) hk
    have h12 : ((1 : ℚ) / 2) ^ 12 = 1 / 4096 := by norm_num
    rw [h12] at h
    exact h
  · exact pow_le_one₀ (by norm_num) (by norm_num)

/-- During the twelve iterations the bracket stays far wider than the rounding error. -/
theorem inv64_wide {t : ℚ} {k : ℕ} {s : Search} (h : Inv64 t k s) (hk : k ≤ 12) :
    1 / 8192 < s.high - s.low := by
  obtain ⟨hX1, hX2⟩ := half_pow_bounds k hk
  have hw := abs_le.1 h.width
  rw [fl_tenth] at hw
  nlinarith [hw.1, hw.2]

/-- The computed midpoint is the exact midpoint up to `3 / 2^54`. -/
theorem midpoint_error {t : ℚ} {k : ℕ} {s : Search} (h : Inv64 t k s) (hk : k ≤ 12) :
    |fl (fl (s.low + s.high) / 2) - (s.low + s.high) / 2| ≤ 3 / 2 ^ 54 := by
  have hwide := inv64_wide h hk
  have hlo := h.low_ge
  have hhi := h.high_le
  rw [fl_tenth] at hlo
  have ha0 : 0 < s.low + s.high := by linarith
  have ha2 : s.low + s.high < 2 := by linarith
  have e1 := abs_le.1 (fl_error _ ha0 ha2)
  have hb0 : 0 < fl (s.low + s.high) / 2 := by
    have : (1 : ℚ) / 2 ^ 53 < 1 / 10 := by norm_num
    linarith [e1.1]
  have hb2 : fl (s.low + s.high) / 2 < 2 := by
    have : (1 : ℚ) / 2 ^ 53 < 1 := by norm_num
    linarith [e1.2]
  have e2 := abs_le.1 (fl_error _ hb0 hb2)
  rw [abs_le]
  constructor
  · have : (3 : ℚ) / 2 ^ 54 = 1 / 2 ^ 53 + 1 / 2 ^ 53 / 2 := by norm_num
    linarith [e1.1, e2.1]
  · have : (3 : ℚ) / 2 ^ 54 = 1 / 2 ^ 53 + 1 / 2 ^ 53 / 2 := by norm_num
    linarith [e1.2, e2.2]

/-- A continuing iteration of the binary64 loop takes the invariant from `k` to `k + 1`. -/
theorem inv64_step {t : ℚ} {k : ℕ} (c : Canvas) {s s1 : Search} (h : Inv64 t k s)
    (hk : k ≤ 12) (hs : searchStep64 c t s = (s1, none)) : Inv64 t (k + 1) s1 := by
  have hwide := inv64_wide h hk
  have hmid := abs_le.1 (midpoint_error h hk)
  have hlo := h.low_ge
  have hhi := h.high_le
  have hne := h.nonempty
  have hw := abs_le.1 h.width
  have hpow : ((1 : ℚ) / 2) ^ (k + 1) = (1 / 2) ^ k * (1 / 2) := pow_succ _ _
  have h54 : (3 : ℚ) / 2 ^ 54 = 3 / 2 ^ 53 / 2 := by norm_num
  have h54' : (3 : ℚ) / 2 ^ 54 < 1 / 16384 := by norm_num
  have hprobes : ∀ sz, (recordProbe64 t s (fl (fl (s.low + s.high) / 2)) sz).probes.tail =
      s.probes.tail ++ [(fl (fl (s.low + s.high) / 2), sz)] := fun sz => by
    simp [recordProbe64, tail_snoc _ _ hne]
  have hne1 : ∀ sz, (recordProbe64 t s (fl (fl (s.low + s.high) / 2)) sz).probes ≠ [] :=
    fun sz => by simp [recordProbe64]
  have hfar : ∀ sz, ¬ |fl (sz - t)| ≤ 12 → 12 < |sz - t| := fun sz hn => by
    by_contra hle
    exact hn (fl_abs_le_twelve _ (not_lt.1 hle))
  rcases searchStep64_cases c t s with ⟨r, he⟩ | ⟨sz, ⟨_, he⟩ | ⟨h12, hgt, he⟩ | ⟨h12, hle, he⟩⟩
  · rw [he] at hs; simp at hs
  · rw [he] at hs; simp at hs
  · rw [he] at hs
    simp only [Prod.mk.injEq, and_true] at hs
    rw [← hs]
    refine ⟨hlo, ?_, ?_, hne1 sz, ?_, ?_⟩
    · show fl (fl (s.low + s.high) / 2) ≤ 1
      linarith [hmid.2]
    · show |fl (fl (s.low + s.high) / 2) - s.low - (1 - fl (1 / 10)) * (1 / 2) ^ (k + 1)| ≤
        3 / 2 ^ 53 * (1 - (1 / 2) ^ (k + 1))
      rw [hpow, abs_le]
      constructor <;> nlinarith [hmid.1, hmid.2, hw.1, hw.2]
    · intro hl
      obtain ⟨p, hp, h1, h2⟩ := h.low_seen hl
      refine ⟨p, ?_, h1, h2⟩
      show p ∈ (recordProbe64 t s (fl (fl (s.low + s.high) / 2)) sz).probes.tail
      rw [hprobes]; exact List.mem_append_left _ hp
    · intro _
      refine ⟨(fl (fl (s.low + s.high) / 2), sz), ?_, rfl, ?_⟩
      · show _ ∈ (recordProbe64 t s (fl (fl (s.low + s.high) / 2)) sz).probes.tail
        rw [hprobes]; simp
      · have h1 := hfar sz h12
        rw [abs_of_pos (sub_pos.2 hgt)] at h1
        show t + 12 < sz
        linarith
  · rw [he] at hs
    simp only [Prod.mk.injEq, and_true] at hs
    rw [← hs]
    refine ⟨?_, hhi, ?_, hne1 sz, ?_, ?_⟩
    · show fl (1 / 10) ≤ fl (fl (s.low + s.high) / 2)
      linarith [hmid.1]
    · show |s.high - fl (fl (s.low + s.high) / 2) - (1 - fl (1 / 10)) * (1 / 2) ^ (k + 1)| ≤
        3 / 2 ^ 53 * (1 - (1 / 2) ^ (k + 1))
      rw [hpow, abs_le]
      constructor <;> nlinarith [hmid.1, hmid.2, hw.1, hw.2]
    · intro _
      refine ⟨(fl (fl (s.low + s.high) / 2), sz), ?_, rfl, ?_⟩
      · show _ ∈ (recordProbe64 t s (fl (fl (s.low + s.high) / 2)) sz).probes.tail
        rw [hprobes]; simp
      · have h1 := hfar sz h12
        rw [abs_of_nonpos (sub_nonpos.2 hle)] at h1
        show sz < t - 12
        linarith
    · intro hl
      obtain ⟨p, hp, h1, h2⟩ := h.high_seen hl
      refine ⟨p, ?_, h1, h2⟩
      show p ∈ (recordProbe64 t s (fl (fl (s.low + s.high) / 2)) sz).probes.tail
      rw [hprobes]; exact List.mem_append_left _ hp

theorem stateAt64_succ_some {c : Canvas} {t : ℚ} {s0 s : Search} {k : ℕ}
    (h : stateAt64 c t s0 (k + 1) = some s) :
    ∃ s1, stateAt64 c t s0 k = some s1 ∧ searchStep64 c t s1 = (s, none) := by
  simp only [stateAt64] at h
  cases h1 : stateAt64 c t s0 k with
  | none => rw [h1] at h; simp at h
  | some s1 =>
    rw [h1] at h
    refine ⟨s1, rfl, ?_⟩
    cases hs : searchStep64 c t s1 with
    | mk s2 o =>
      simp only [hs] at h
      cases o with
      | some r => simp at h
      | none => simp at h; rw [h]

/-- The invariant holds at the start of every iteration of the binary64 loop that is
reached, up to the twelfth. -/
theorem inv64_stateAt (c : Canvas) (t q0 cur : ℚ) (k : ℕ) (hk : k ≤ 12) {s : Search}
    (hs : stateAt64 c t (initSearch64 q0 cur) k = some s) : Inv64 t k s := by
  induction k generalizing s with
  | zero => simp [stateAt64] at hs; rw [← hs]; exact inv64_init t q0 cur
  | succ k ih =>
    obtain ⟨s1, h1, h2⟩ := stateAt64_succ_some hs
    exact inv64_step c (ih (by omega) h1) (by omega) h2

theorem searchLoop64_of_continue {c : Canvas} {t : ℚ} {s s1 : Search} (n : ℕ)
    (h : searchStep64 c t s = (s1, none)) :
    searchLoop64 c t (n + 1) s = searchLoop64 c t n s1 := by
  simp only [searchLoop64, h]

/-- Reaching iteration `k` means the binary64 loop continues from those locals with its
remaining iterations. -/
theorem searchLoop64_of_stateAt (c : Canvas) (t : ℚ) (s0 : Search) (k m : ℕ) {s : Search}
    (hk : stateAt64 c t s0 k = some s) :
    searchLoop64 c t (k + m) s0 = searchLoop64 c t m s := by
  induction k generalizing s m with
  | zero => simp [stateAt64] at hk; rw [hk]; simp
  | succ k ih =>
    obtain ⟨s1, h1, h2⟩ := stateAt64_succ_some hk
    have := ih (m + 1) h1
    rw [searchLoop64_of_continue m h2] at this
    rw [← this]
    congr 1
    omega

/-- C9, as the claim states it, fails on the width equation once the loop is computed in
doubles, as the source computes it.  Against an encoder that always returns 1000 KB (target
100 KB), at the start of iteration 1 `low` is the double 0.1 and `high` the double 0.55;
`high - low` evaluates to 0.45000000000000007 while `0.9 / 2^1` evaluates to 0.45, and the
exact difference of the two doubles is not 9/20 either. -/
theorem bracket_width_binary64_counterexample :
    stateAt64 (constantCanvas 1000) 100 (initSearch64 (fl (4 / 5)) 1000) 1 =
        some constantLocals1 ∧
      constantLocals1.low = fl (1 / 10) ∧
      constantLocals1.high = fl (fl (fl (1 / 10) + 1) / 2) ∧
      fl (constantLocals1.high - constantLocals1.low) = 8106479329266894 / 2 ^ 54 ∧
      fl (fl (9 / 10) / 2 ^ 1) = 8106479329266893 / 2 ^ 54 ∧
      fl (constantLocals1.high - constantLocals1.low) ≠ fl (fl (9 / 10) / 2 ^ 1) ∧
      constantLocals1.high - constantLocals1.low ≠ 9 / 10 / 2 ^ 1 := by
  decide!

/-- C9, amended: bracket invariant of the bisection loop as computed in doubles.  For every
encoder, target and first probe, at the start of iteration `k` (0 ≤ k ≤ 12, whenever the
loop gets there, the loop then continuing from these locals with its remaining `12 - k`
iterations) the bounds satisfy `0.1 ≤ low < high ≤ 1.0`, where 0.1 is the double of line
312; the width `high - low` equals `0.9 / 2^k` up to rounding, within `2^-51`; the next
midpoint, computed as `(low + high) / 2` in doubles, lies strictly inside (0.1, 1.0); when
`low` is not 0.1 a bisection probe at `low` returned a size below `target - 12`, and when
`high` is not 1.0 a bisection probe at `high` returned a size above `target + 12`. -/
theorem bracket_invariant_binary64 (c : Canvas) (t q0 cur : ℚ) (k : ℕ) (s : Search)
    (hk : k ≤ 12) (hs : stateAt64 c t (initSearch64 q0 cur) k = some s) :
    searchLoop64 c t 12 (initSearch64 q0 cur) = searchLoop64 c t (12 - k) s ∧
      fl (1 / 10) ≤ s.low ∧ s.low < s.high ∧ s.high ≤ 1 ∧
      |s.high - s.low - 9 / 10 / 2 ^ k| ≤ 1 / 2 ^ 51 ∧
      fl (1 / 10) < fl (fl (s.low + s.high) / 2) ∧ fl (fl (s.low + s.high) / 2) < 1 ∧
      (s.low ≠ fl (1 / 10) → ∃ p ∈ s.probes.tail, p.1 = s.low ∧ p.2 < t - 12) ∧
      (s.high ≠ 1 → ∃ p ∈ s.probes.tail, p.1 = s.high ∧ t + 12 < p.2) := by
  have h := inv64_stateAt c t q0 cur k hk hs
  have hwide := inv64_wide h hk
  have hmid := abs_le.1 (midpoint_error h hk)
  have hlo := h.low_ge
  have hhi := h.high_le
  have hw := abs_le.1 h.width
  obtain ⟨hX1, hX2⟩ := half_pow_bounds k hk
  have h54 : (3 : ℚ) / 2 ^ 54 < 1 / 16384 := by norm_num
  have hloop : searchLoop64 c t 12 (initSearch64 q0 cur) = searchLoop64 c t (12 - k) s := by
    have h12 : 12 = k + (12 - k) := by omega
    conv_lhs => rw [h12]
    exact searchLoop64_of_stateAt c t _ k (12 - k) hs
  refine ⟨hloop, hlo, by linarith, hhi, ?_, by linarith [hmid.1], by linarith [hmid.2],
    h.low_seen, h.high_seen⟩
  have hdiv : (9 : ℚ) / 10 / 2 ^ k = 9 / 10 * (1 / 2) ^ k := by
    rw [one_div_pow]; ring
  rw [hdiv, abs_le]
  rw [fl_tenth] at hw
  constructor <;> nlinarith [hw.1, hw.2]

theorem bracket_invariant_binary64_witness :
    searchLoop64 (pureCanvas linearEncoder) (3125 / 16)
          12 (initSearch64 (fl (4 / 5)) (3125 / 8)) =
        searchLoop64 (pureCanvas linearEncoder) (3125 / 16) (12 - 2) linearLocals2 ∧
      fl (1 / 10) ≤ linearLocals2.low ∧ linearLocals2.low < linearLocals2.high ∧
      linearLocals2.high ≤ 1 ∧
      |linearLocals2.high - linearLocals2.low - 9 / 10 / 2 ^ 2| ≤ 1 / 2 ^ 51 ∧
      fl (1 / 10) < fl (fl (linearLocals2.low + linearLocals2.high) / 2) ∧
      fl (fl (linearLocals2.low + linearLocals2.high) / 2) < 1 ∧
      (linearLocals2.low ≠ fl (1 / 10) →
        ∃ p ∈ linearLocals2.probes.tail, p.1 = linearLocals2.low ∧ p.2 < 3125 / 16 - 12) ∧
      (linearLocals2.high ≠ 1 →
        ∃ p ∈ linearLocals2.probes.tail, p.1 = linearLocals2.high ∧ 3125 / 16 + 12 < p.2) :=
  bracket_invariant_binary64 (pureCanvas linearEncoder) (3125 / 16) (fl (4 / 5)) (3125 / 8) 2
    linearLocals2 (by decide!) (by decide!)

end EditinGwithPK
